import Mathlib

/-!
Shallow embedding of the red panda lineage dataset builder, src/build.py.

Records (one per zoo or animal file) are ordered association lists of
field name to string value, mirroring what configparser.items produces.
Python dicts are modelled the same way: keys are set with dset (overwrite
in place, else append), looked up with dget (first occurrence), and
compared with deq (extensional key/value equality, the semantics of dict
equality for duplicate-free dicts). Fallible Python code is modelled with
Except PyErr; each Python exception class that can surface is one
constructor, including the exceptions the interpreter itself raises
(ValueError from int, KeyError from dict indexing, TypeError from
indexing a tuple, IndexError from list indexing, NameError from reading
an unbound local).
-/

/-- One record or Python dict: ordered field name / value pairs. -/
abbrev Dict := List (String × String)

/-- Errors: the exception classes of build.py plus the interpreter
exceptions its code can raise. -/
inductive PyErr where
  | DateFormatError (msg : String)
  | GenderFormatError (msg : String)
  | IdError (msg : String)
  | NameFormatError (msg : String)
  | ValueError (msg : String)
  | KeyError (msg : String)
  | TypeError (msg : String)
  | IndexError (msg : String)
  | NameError (msg : String)
  | NoOptionError (msg : String)
  deriving DecidableEq, Repr

/-- First-occurrence lookup, the semantics of d[k] / d.get(k). -/
def dget : Dict → String → Option String
  | [], _ => none
  | (k', v) :: rest, k => if k' = k then some v else dget rest k

/-- Python dict assignment d[k] = v: overwrite in place, else append. -/
def dset : Dict → String → String → Dict
  | [], k, v => [(k, v)]
  | (k', v') :: rest, k, v =>
    if k' = k then (k', v) :: rest else (k', v') :: dset rest k v

/-- Every pair of d1 is present in d2 (by first-occurrence lookup). -/
def dsub (d1 d2 : Dict) : Bool :=
  d1.all (fun p => dget d2 p.1 == some p.2)

/-- Python dict equality for the duplicate-free dicts this program builds. -/
def deq (d1 d2 : Dict) : Bool :=
  dsub d1 d2 && dsub d2 d1

/-- Prefix test on character lists. -/
def startsWithCL : List Char → List Char → Bool
  | [], _ => true
  | _ :: _, [] => false
  | p :: ps, c :: cs => p = c && startsWithCL ps cs

/-- Substring occurrence on character lists. -/
def containsCL (pat : List Char) : List Char → Bool
  | [] => startsWithCL pat []
  | c :: cs => startsWithCL pat (c :: cs) || containsCL pat cs

/-- Python s.find(pat) != -1: pat occurs somewhere in s. -/
def containsSub (s pat : String) : Bool :=
  containsCL pat.data s.data

/-- Python s.replace(" ", ""): drop every space character. -/
def stripSpaces (s : String) : String :=
  String.mk (s.data.filter (fun c => c ≠ ' '))

/-- Split a character list at every occurrence of sep. -/
def splitChCL (sep : Char) : List Char → List Char → List (List Char)
  | [], acc => [acc.reverse]
  | x :: xs, acc =>
    if x = sep then acc.reverse :: splitChCL sep xs []
    else splitChCL sep xs (x :: acc)

/-- Python s.split(","): at least one piece, empty string gives [""]. -/
def splitComma (s : String) : List String :=
  (splitChCL ',' s.data []).map String.mk

/-- Python s.split("/"). -/
def splitSlash (s : String) : List String :=
  (splitChCL '/' s.data []).map String.mk

/-- Python whitespace characters stripped by int(). -/
def isSpaceCh (c : Char) : Bool :=
  c = ' ' || c = '\t' || c = '\n' || c = '\r'

/-- Strip leading and trailing whitespace from a character list. -/
def stripWS (cs : List Char) : List Char :=
  ((cs.dropWhile isSpaceCh).reverse.dropWhile isSpaceCh).reverse

/-- Numeric value of a digit list (most significant first). -/
def natOfDigits (cs : List Char) : Nat :=
  cs.foldl (fun a c => a * 10 + (c.toNat - 48)) 0

/-- Python int(s): optional surrounding whitespace, optional sign, digits;
anything else raises ValueError. -/
def pyInt (s : String) : Except PyErr Int :=
  match stripWS s.data with
  | '-' :: ds =>
    if ds ≠ [] ∧ ds.all Char.isDigit then .ok (-(natOfDigits ds : Int))
    else .error (.ValueError ("invalid literal for int: " ++ s))
  | '+' :: ds =>
    if ds ≠ [] ∧ ds.all Char.isDigit then .ok ((natOfDigits ds : Int))
    else .error (.ValueError ("invalid literal for int: " ++ s))
  | ds =>
    if ds ≠ [] ∧ ds.all Char.isDigit then .ok ((natOfDigits ds : Int))
    else .error (.ValueError ("invalid literal for int: " ++ s))

/-- Decimal digits of n, fuelled (fuel at least one more than needed). -/
def natStrAux : Nat → Nat → List Char
  | 0, _ => []
  | fuel + 1, n =>
    if n < 10 then [Char.ofNat (48 + n)]
    else natStrAux fuel (n / 10) ++ [Char.ofNat (48 + n % 10)]

/-- Python str(i) for an int i. -/
def pyIntStr (i : Int) : String :=
  if i < 0 then "-" ++ String.mk (natStrAux (i.natAbs + 1) i.natAbs)
  else String.mk (natStrAux (i.natAbs + 1) i.natAbs)

/-- json.dumps escaping of one character (ensure_ascii=False). -/
def escChar (c : Char) : List Char :=
  if c = '"' then ['\\', '"']
  else if c = '\\' then ['\\', '\\']
  else if c = '\n' then ['\\', 'n']
  else if c = '\t' then ['\\', 't']
  else if c = '\r' then ['\\', 'r']
  else if c.toNat < 32 then ['\\', 'u', '0', '0',
    Char.ofNat (if c.toNat / 16 < 10 then 48 + c.toNat / 16 else 87 + c.toNat / 16),
    Char.ofNat (if c.toNat % 16 < 10 then 48 + c.toNat % 16 else 87 + c.toNat % 16)]
  else [c]

/-- Escape every character of a string for JSON output. -/
def escList : List Char → List Char
  | [] => []
  | c :: cs => escChar c ++ escList cs

/-- A JSON string literal, non-ASCII characters preserved. -/
def dumpStr (s : String) : String :=
  "\"" ++ String.mk (escList s.data) ++ "\""

/-- Join strings with a separator. -/
def joinWith (sep : String) : List String → String
  | [] => ""
  | [x] => x
  | x :: y :: xs => x ++ sep ++ joinWith sep (y :: xs)

/-- Lexicographic less-or-equal on character lists, comparing code points,
the ordering Python uses on strings. -/
def strLeCL : List Char → List Char → Bool
  | [], _ => true
  | _ :: _, [] => false
  | a :: as, b :: bs =>
    if a < b then true else if b < a then false else strLeCL as bs

/-- Python string less-or-equal. -/
def strLeB (a b : String) : Bool := strLeCL a.data b.data

/-- Insert one pair into a key-sorted association list. -/
def insertByKey (p : String × String) : Dict → Dict
  | [] => [p]
  | q :: qs => if strLeB p.1 q.1 then p :: q :: qs else q :: insertByKey p qs

/-- Sort a dict by key, the effect of json.dumps(sort_keys=True). -/
def sortByKey (d : Dict) : Dict :=
  d.foldr insertByKey []

/-- Serialize one dict as a JSON object with sorted keys. -/
def dumpDict (d : Dict) : String :=
  "\x7b" ++ joinWith ", " ((sortByKey d).map
    (fun p => dumpStr p.1 ++ ": " ++ dumpStr p.2)) ++ "\x7d"

/-- Serialize a list of dicts as a JSON array. -/
def dumpDictList (l : List Dict) : String :=
  "[" ++ joinWith ", " (l.map dumpDict) ++ "]"

/-- The full export document: top-level keys in sorted order
(edges, totals, vertices), totals keys in sorted order (pandas, zoos). -/
def dumpExport (edges vertices : List Dict) (zoos pandas : Int) : String :=
  "\x7b\"edges\": " ++ dumpDictList edges ++
  ", \"totals\": \x7b\"pandas\": " ++ pyIntStr pandas ++
  ", \"zoos\": " ++ pyIntStr zoos ++
  "\x7d, \"vertices\": " ++ dumpDictList vertices ++ "\x7d"

/-- The RedPandaGraph accumulator: its five lists, as in __init__. -/
structure RedPandaGraph where
  edges : List Dict
  vertices : List Dict
  zoos : List Dict
  panda_files : List String
  zoo_files : List String
  deriving DecidableEq, Repr

/-- The freshly constructed graph. -/
def initGraph : RedPandaGraph :=
  { edges := [], vertices := [], zoos := [], panda_files := [], zoo_files := [] }

/-- configparser get: the named option must be present. -/
def cfgGet (record : Dict) (k : String) : Except PyErr String :=
  match dget record k with
  | some v => .ok v
  | none => .error (.NoOptionError k)

/-- check_imported_date: split on "/"; unpacking into three names raises
ValueError when the piece count differs, and the except handler then reads
the unbound names (NameError); with three pieces, a non-numeric piece makes
int() raise ValueError, turned into DateFormatError; with three numeric
pieces, datetime.date is the unbound method of the datetime class, so
calling it on ints raises an uncaught TypeError. -/
def check_imported_date (date sourcepath : String) : Except PyErr Unit :=
  match splitSlash date with
  | [year, month, day] =>
    match pyInt year with
    | .error _ => .error (.DateFormatError ("ERROR: " ++ sourcepath ++
        ": invalid YYYY/MM/DD date: " ++ year ++ "/" ++ month ++ "/" ++ day))
    | .ok _ =>
      match pyInt month with
      | .error _ => .error (.DateFormatError ("ERROR: " ++ sourcepath ++
          ": invalid YYYY/MM/DD date: " ++ year ++ "/" ++ month ++ "/" ++ day))
      | .ok _ =>
        match pyInt day with
        | .error _ => .error (.DateFormatError ("ERROR: " ++ sourcepath ++
            ": invalid YYYY/MM/DD date: " ++ year ++ "/" ++ month ++ "/" ++ day))
        | .ok _ => .error (.TypeError
            "descriptor date for datetime.datetime objects does not apply to int")
  | _ => .error (.NameError "year")

/-- check_imported_gender: normalize to Male or Female, else
GenderFormatError. -/
def check_imported_gender (gender sourcepath : String) : Except PyErr String :=
  if gender = "m" ∨ gender = "M" ∨ gender = "male" ∨ gender = "Male" ∨ gender = "オス" then
    .ok "Male"
  else if gender = "f" ∨ gender = "F" ∨ gender = "female" ∨ gender = "Female" ∨ gender = "メス" then
    .ok "Female"
  else
    .error (.GenderFormatError ("ERROR: " ++ sourcepath ++
      ": unsupported gender: " ++ gender))

/-- check_imported_name: reject names longer than 80 characters. -/
def check_imported_name (nm field sourcepath : String) : Except PyErr Unit :=
  if nm.length > 80 then
    .error (.NameFormatError ("ERROR: " ++ sourcepath ++ ": " ++ field ++
      " name too long: " ++ nm))
  else .ok ()

/-- The comprehension building the id list of a dataset: d[_id] for each
entry, KeyError on the first entry lacking the key. -/
def idsOf : List Dict → Except PyErr (List String)
  | [] => .ok []
  | d :: ds =>
    match dget d "_id" with
    | none => .error (.KeyError "_id")
    | some i =>
      match idsOf ds with
      | .error e => .error e
      | .ok is' => .ok (i :: is')

/-- Elements with an earlier equal occurrence, as ids[:n] membership. -/
def dupeAux : List String → List String → List String
  | [], _ => []
  | x :: xs, seen =>
    if seen.contains x then x :: dupeAux xs (seen ++ [x])
    else dupeAux xs (seen ++ [x])

/-- The dupe_ids comprehension of check_dataset_duplicate_ids. -/
def dupeIds (ids : List String) : List String :=
  dupeAux ids []

/-- check_imported_zoo_id: the negated id must be among the imported zoo
ids; int() may raise ValueError, a zoo entry without _id raises KeyError. -/
def check_imported_zoo_id (zoos : List Dict) (zoo_id sourcepath : String) :
    Except PyErr Unit :=
  match pyInt zoo_id with
  | .error e => .error e
  | .ok n =>
    match idsOf zoos with
    | .error e => .error e
    | .ok zids =>
      if zids.contains (pyIntStr (n * -1)) then .ok ()
      else .error (.IdError ("ERROR: " ++ sourcepath ++
        ": zoo id doesn't exist: " ++ zoo_id))

/-- check_dataset_duplicate_ids: when duplicates exist, the dupe_names
comprehension iterates enumerate(dataset) and indexes a tuple with a
string, so the interpreter raises TypeError before the IdError line. -/
def check_dataset_duplicate_ids (dataset : List Dict) : Except PyErr Unit :=
  match idsOf dataset with
  | .error e => .error e
  | .ok ids =>
    if (dupeIds ids).length > 0 then
      .error (.TypeError "tuple indices must be integers or slices, not str")
    else .ok ()

/-- check_dataset_children_ids is a TODO stub: its body is pass. -/
def check_dataset_children_ids (_g : RedPandaGraph) : Except PyErr Unit :=
  .ok ()

/-- check_dataset_dates is a TODO stub: its body is pass. -/
def check_dataset_dates (_g : RedPandaGraph) : Except PyErr Unit :=
  .ok ()

/-- The zoos matching a given (already negated) id, in order; the
comprehension indexes each entry, KeyError if one lacks _id. -/
def selectZoos : List Dict → String → Except PyErr (List Dict)
  | [], _ => .ok []
  | z :: zs, zid =>
    match dget z "_id" with
    | none => .error (.KeyError "_id")
    | some v =>
      match selectZoos zs zid with
      | .error e => .error e
      | .ok rest => if v = zid then .ok (z :: rest) else .ok rest

/-- The children branch of import_redpanda: strip spaces, split on commas;
the tokens none and unknown must stand alone (IdError otherwise) and
produce no edges; every other token becomes one family edge. -/
def childrenEdges (path pid value : String) : Except PyErr (List Dict) :=
  let children := splitComma (stripSpaces value)
  if children.contains "none" ∨ children.contains "unknown" then
    if children.length > 1 then
      .error (.IdError ("ERROR: " ++ path ++ ": invalid children list: " ++ value))
    else .ok []
  else
    .ok (children.map (fun c => [("_out", pid), ("_in", c), ("_label", "family")]))

/-- The field loop of import_redpanda, threading the live vertex list
(zoo vertices are appended to it mid-loop), the panda vertex under
construction, and the accumulated local edge list. -/
def processPandaFields (zoos : List Dict) (path pid : String) :
    List (String × String) → List Dict × Dict × List Dict →
    Except PyErr (List Dict × Dict × List Dict)
  | [], st => .ok st
  | (k, v) :: rest, (vs, pv, pe) =>
    if containsSub k "name" then
      match check_imported_name v k path with
      | .error e => .error e
      | .ok _ => processPandaFields zoos path pid rest (vs, dset pv k v, pe)
    else if containsSub k "gender" then
      match check_imported_gender v path with
      | .error e => .error e
      | .ok gc => processPandaFields zoos path pid rest (vs, dset pv k gc, pe)
    else if containsSub k "birthplace" ∨ containsSub k "zoo" then
      match pyInt v with
      | .error e => .error e
      | .ok n =>
        match check_imported_zoo_id zoos v path with
        | .error e => .error e
        | .ok _ =>
          match selectZoos zoos (pyIntStr (n * -1)) with
          | .error e => .error e
          | .ok [] => .error (.IndexError "list index out of range")
          | .ok (zv :: _) =>
            let vs' := if vs.any (fun w => deq zv w) then vs else vs ++ [zv]
            processPandaFields zoos path pid rest
              (vs', pv, pe ++ [[("_out", pid), ("_in", pyIntStr (n * -1)), ("_label", k)]])
    else if containsSub k "children" then
      match childrenEdges path pid v with
      | .error e => .error e
      | .ok es => processPandaFields zoos path pid rest (vs, pv, pe ++ es)
    else
      processPandaFields zoos path pid rest (vs, dset pv k v, pe)

/-- import_redpanda: fetch en.name and _id (NoOptionError when missing),
run the field loop, then extend the edge list and append the new panda
vertex after the zoo vertices the loop added. -/
def import_redpanda (g : RedPandaGraph) (path : String) (record : Dict) :
    Except PyErr RedPandaGraph :=
  match cfgGet record "en.name" with
  | .error e => .error e
  | .ok _ =>
    match cfgGet record "_id" with
    | .error e => .error e
    | .ok pid =>
      match processPandaFields g.zoos path pid record (g.vertices, [], []) with
      | .error e => .error e
      | .ok (vs, pv, pe) =>
        .ok { g with edges := g.edges ++ pe,
                     vertices := vs ++ [pv],
                     panda_files := g.panda_files ++ [path] }

/-- The field loop of import_zoo: the _id value is negated, every other
field is copied verbatim. -/
def zooEntry : List (String × String) → Dict → Except PyErr Dict
  | [], acc => .ok acc
  | (k, v) :: rest, acc =>
    if k = "_id" then
      match pyInt v with
      | .error e => .error e
      | .ok n => zooEntry rest (dset acc k (pyIntStr (n * -1)))
    else zooEntry rest (dset acc k v)

/-- import_zoo: build the entry and append it to the zoo list. -/
def import_zoo (g : RedPandaGraph) (path : String) (record : Dict) :
    Except PyErr RedPandaGraph :=
  match zooEntry record [] with
  | .error e => .error e
  | .ok entry =>
    .ok { g with zoos := g.zoos ++ [entry], zoo_files := g.zoo_files ++ [path] }

/-- verify_zoos: duplicate-id check over the zoo list. -/
def verify_zoos (g : RedPandaGraph) : Except PyErr Unit :=
  check_dataset_duplicate_ids g.zoos

/-- verify_pandas: duplicate-id check over the combined vertex list, then
the two stubbed dataset checks. -/
def verify_pandas (g : RedPandaGraph) : Except PyErr Unit :=
  match check_dataset_duplicate_ids g.vertices with
  | .error e => .error e
  | .ok _ =>
    match check_dataset_children_ids g with
    | .error e => .error e
    | .ok _ => check_dataset_dates g

/-- Import every file in order with the given importer. -/
def importFold (f : RedPandaGraph → String → Dict → Except PyErr RedPandaGraph) :
    RedPandaGraph → List (String × Dict) → Except PyErr RedPandaGraph
  | g, [] => .ok g
  | g, (p, r) :: rest =>
    match f g p r with
    | .error e => .error e
    | .ok g' => importFold f g' rest

/-- import_tree: the files arrive in sorted enumeration order (the
directory walk is external I/O); import each, then run the phase
validator. -/
def import_tree (g : RedPandaGraph) (files : List (String × Dict))
    (f : RedPandaGraph → String → Dict → Except PyErr RedPandaGraph)
    (verify : RedPandaGraph → Except PyErr Unit) : Except PyErr RedPandaGraph :=
  match importFold f g files with
  | .error e => .error e
  | .ok g' =>
    match verify g' with
    | .error e => .error e
    | .ok _ => .ok g'

/-- build_graph: the zoo phase, then the panda phase. -/
def build_graph (zooFiles pandaFiles : List (String × Dict)) :
    Except PyErr RedPandaGraph :=
  match import_tree initGraph zooFiles import_zoo verify_zoos with
  | .error e => .error e
  | .ok g => import_tree g pandaFiles import_redpanda verify_pandas

/-- export_json_graph: serialize vertices, edges and the totals computed
as zoos = len(zoos) and pandas = len(vertices) - len(zoos). -/
def export_json_graph (g : RedPandaGraph) : String :=
  dumpExport g.edges g.vertices (g.zoos.length : Int)
    ((g.vertices.length : Int) - (g.zoos.length : Int))

/-! Claim theorems. -/

/-- C2, failing-input evaluation: the whole-dataset validation accepts a
family edge set whose directed graph on animal vertices is the cycle
1 -> 2 -> 3 -> 1, because check_dataset_children_ids is a pass stub; the
build succeeds and reaches export with the cyclic edges intact. -/
theorem c2_cycle_accepted :
    (build_graph []
      [("pandas/a/0001_a.txt", [("_id", "1"), ("en.name", "A"), ("children", "2")]),
       ("pandas/a/0002_b.txt", [("_id", "2"), ("en.name", "B"), ("children", "3")]),
       ("pandas/a/0003_c.txt", [("_id", "3"), ("en.name", "C"), ("children", "1")])]).map
      (fun g => g.edges)
    = .ok [[("_out", "1"), ("_in", "2"), ("_label", "family")],
           [("_out", "2"), ("_in", "3"), ("_label", "family")],
           [("_out", "3"), ("_in", "1"), ("_label", "family")]] := by
  rfl

/-- C3, failing-input evaluation: a family edge whose child birth date
2010/01/01 precedes the parent birth date 2020/01/01 passes whole-dataset
validation, because check_dataset_dates is a pass stub; the build succeeds
with the edge and both dates stored. -/
theorem c3_chronology_accepted :
    (build_graph []
      [("pandas/a/0001_a.txt",
         [("_id", "1"), ("en.name", "A"), ("birthday", "2020/01/01"), ("children", "2")]),
       ("pandas/a/0002_b.txt",
         [("_id", "2"), ("en.name", "B"), ("birthday", "2010/01/01"), ("children", "none")])]).map
      (fun g => (g.edges, g.vertices.map (fun v => dget v "birthday")))
    = .ok ([[("_out", "1"), ("_in", "2"), ("_label", "family")]],
           [some "2020/01/01", some "2010/01/01"]) := by
  rfl

/-- C4, failing-input evaluation: import_redpanda never dispatches date
fields to the date validator, so a birthday value that is not a date is
stored verbatim and the build succeeds; moreover check_imported_date
itself never returns normally: a value that does not split into three
pieces raises NameError from the except handler, and a well-formed
YYYY/MM/DD value raises TypeError from the datetime.date descriptor
misuse, so it could not validate dates even if it were called. -/
theorem c4_dates_not_validated_at_import :
    (build_graph []
      [("pandas/a/0001_a.txt",
         [("_id", "1"), ("en.name", "A"), ("birthday", "not-a-date")])]).map
      (fun g => g.vertices.map (fun v => dget v "birthday"))
    = .ok [some "not-a-date"]
    ∧ check_imported_date "not-a-date" "pandas/a/0001_a.txt"
      = .error (.NameError "year")
    ∧ check_imported_date "2020/01/01" "pandas/a/0001_a.txt"
      = .error (.TypeError
          "descriptor date for datetime.datetime objects does not apply to int") := by
  exact ⟨rfl, rfl, rfl⟩

/-- C5, failing-input evaluation: import_zoo copies every field verbatim
and never calls check_imported_name, so a zoo record whose en.name is 81
characters long is imported and passes validation; the stored name
exceeds the 80-character bound. -/
theorem c5_zoo_name_not_checked :
    (build_graph
      [("zoos/jp/0001_long.txt",
        [("_id", "1"),
         ("en.name",
          "AAAAAAAAAAAAAAAAAAAAAAAAAAAAAAAAAAAAAAAAAAAAAAAAAAAAAAAAAAAAAAAAAAAAAAAAAAAAAAAAA")])]
      []).map (fun g => g.zoos.map (fun z => dget z "en.name"))
    = .ok [some
        "AAAAAAAAAAAAAAAAAAAAAAAAAAAAAAAAAAAAAAAAAAAAAAAAAAAAAAAAAAAAAAAAAAAAAAAAAAAAAAAAA"]
    ∧ ("AAAAAAAAAAAAAAAAAAAAAAAAAAAAAAAAAAAAAAAAAAAAAAAAAAAAAAAAAAAAAAAAAAAAAAAAAAAAAAAAA" : String).length
      = 81 := by
  exact ⟨rfl, rfl⟩

/-- C6, failing-input evaluation: on a dataset with a duplicated _id the
dupe-names comprehension iterates enumerate(dataset) and indexes each
enumeration tuple with the string _id, so the interpreter raises
TypeError before the IdError naming the offending entities is reached;
a dataset with distinct ids passes (shown by the successful zoo phase of
a two-zoo build with distinct ids). -/
theorem c6_duplicate_ids_raise_type_error :
    build_graph
      [("zoos/jp/0001_a.txt", [("_id", "1"), ("en.name", "A")]),
       ("zoos/jp/0002_b.txt", [("_id", "1"), ("en.name", "B")])] []
    = .error (.TypeError "tuple indices must be integers or slices, not str")
    ∧ (build_graph
        [("zoos/jp/0001_a.txt", [("_id", "1"), ("en.name", "A")]),
         ("zoos/jp/0002_b.txt", [("_id", "2"), ("en.name", "B")])] []).map
        (fun g => g.zoos.length)
      = .ok 2 := by
  exact ⟨rfl, rfl⟩

/-- C1, counterexample: a valid record set with one zoo and no animals
builds successfully, yet the exported vertices list is empty, omitting
the zoo vertex entirely; totals reports zoos = 1 although the vertex
list holds zero zoo vertices, and pandas = -1 although it holds zero
non-zoo vertices. -/
theorem c1_counterexample :
    (build_graph [("zoos/jp/0001_z.txt", [("_id", "1"), ("en.name", "Z")])] []).map
      (fun g => (g.zoos, g.vertices, export_json_graph g))
    = .ok ([[("_id", "-1"), ("en.name", "Z")]], [],
        "\x7b\"edges\": [], \"totals\": \x7b\"pandas\": -1, \"zoos\": 1\x7d, \"vertices\": []\x7d") := by
  rfl

/-- Helper: importing a record with fields _id, en.name, gender reduces to
the gender check, whose result is stored in the vertex. -/
theorem process_gender_record (s path : String) :
    processPandaFields [] path "1" [("_id", "1"), ("en.name", "A"), ("gender", s)] ([], [], [])
    = match check_imported_gender s path with
      | .error e => .error e
      | .ok gc => .ok ([], [("_id", "1"), ("en.name", "A"), ("gender", gc)], []) := by
  cases h : check_imported_gender s path with
  | error e => simp +decide [processPandaFields, h, check_imported_name, dset]
  | ok gc => simp +decide [processPandaFields, h, check_imported_name, dset]

/-- C8: every gender input in the male vocabulary is canonicalized to
exactly Male, every input in the female vocabulary to exactly Female,
any other input raises GenderFormatError; and the value stored in the
animal vertex by import_redpanda is exactly the canonical result of the
gender check, so no other representation reaches the store. -/
theorem c8_gender_canonical (s path : String) :
    ((s = "m" ∨ s = "M" ∨ s = "male" ∨ s = "Male" ∨ s = "オス") →
      check_imported_gender s path = .ok "Male") ∧
    ((s = "f" ∨ s = "F" ∨ s = "female" ∨ s = "Female" ∨ s = "メス") →
      check_imported_gender s path = .ok "Female") ∧
    (¬(s = "m" ∨ s = "M" ∨ s = "male" ∨ s = "Male" ∨ s = "オス") →
     ¬(s = "f" ∨ s = "F" ∨ s = "female" ∨ s = "Female" ∨ s = "メス") →
      check_imported_gender s path
        = .error (.GenderFormatError ("ERROR: " ++ path ++ ": unsupported gender: " ++ s))) ∧
    ((import_redpanda initGraph path [("_id", "1"), ("en.name", "A"), ("gender", s)]).map
        (fun g => g.vertices.map (fun v => dget v "gender"))
      = (check_imported_gender s path).map (fun c => [some c])) := by
  refine ⟨?_, ?_, ?_, ?_⟩
  · rintro (rfl | rfl | rfl | rfl | rfl) <;> rfl
  · rintro (rfl | rfl | rfl | rfl | rfl) <;> rfl
  · intro h1 h2
    unfold check_imported_gender
    rw [if_neg h1, if_neg h2]
  · cases h : check_imported_gender s path with
    | error e =>
      simp +decide [import_redpanda, cfgGet, dget, initGraph, Except.map,
        process_gender_record s path, h]
    | ok gc =>
      simp +decide [import_redpanda, cfgGet, dget, initGraph, Except.map,
        process_gender_record s path, h]

/-- Witness for C8 at the concrete inputs オス and メス. -/
theorem c8_gender_canonical_witness :
    check_imported_gender "オス" "pandas/x.txt" = .ok "Male"
    ∧ (import_redpanda initGraph "pandas/x.txt"
        [("_id", "1"), ("en.name", "A"), ("gender", "メス")]).map
        (fun g => g.vertices.map (fun v => dget v "gender"))
      = .ok [some "Female"] :=
  ⟨(c8_gender_canonical "オス" "pandas/x.txt").1 (by decide),
   ((c8_gender_canonical "メス" "pandas/x.txt").2.2.2).trans rfl⟩

/-- Helper: importing a record with fields _id, en.name, children reduces
to the children branch. -/
theorem process_children_record (pid nm v path : String) (hnm : nm.length ≤ 80) :
    processPandaFields [] path pid [("_id", pid), ("en.name", nm), ("children", v)] ([], [], [])
    = match childrenEdges path pid v with
      | .error e => .error e
      | .ok es => .ok ([], [("_id", pid), ("en.name", nm)], es) := by
  have hname : check_imported_name nm "en.name" path = .ok () := by
    unfold check_imported_name
    rw [if_neg (by omega)]
  cases h : childrenEdges path pid v with
  | error e => simp +decide [processPandaFields, h, hname, dset]
  | ok es => simp +decide [processPandaFields, h, hname, dset]

/-- Helper: the full import of such a record, as a function of the
children branch result. -/
theorem import_children_record (pid nm v path : String) (hnm : nm.length ≤ 80) :
    import_redpanda initGraph path [("_id", pid), ("en.name", nm), ("children", v)]
    = match childrenEdges path pid v with
      | .error e => .error e
      | .ok es => .ok { edges := es, vertices := [[("_id", pid), ("en.name", nm)]],
                        zoos := [], panda_files := [path], zoo_files := [] } := by
  cases h : childrenEdges path pid v with
  | error e =>
    simp +decide [import_redpanda, cfgGet, dget, initGraph,
      process_children_record pid nm v path hnm, h]
  | ok es =>
    simp +decide [import_redpanda, cfgGet, dget, initGraph,
      process_children_record pid nm v path hnm, h]

/-- C7: a children value whose token list
(after removing spaces and splitting on commas) is exactly the single
token none or the single token unknown yields zero family edges; either
token together with any other token makes the import fail with IdError;
otherwise every token yields exactly one family edge from the animal
(_out) to the token (_in). -/
theorem c7_children_tokens (pid nm v path : String) (hnm : nm.length ≤ 80) :
    ((splitComma (stripSpaces v) = ["none"] ∨ splitComma (stripSpaces v) = ["unknown"]) →
      (import_redpanda initGraph path
          [("_id", pid), ("en.name", nm), ("children", v)]).map (fun g => g.edges)
        = .ok []) ∧
    (((splitComma (stripSpaces v)).contains "none" = true
        ∨ (splitComma (stripSpaces v)).contains "unknown" = true) →
     1 < (splitComma (stripSpaces v)).length →
      import_redpanda initGraph path [("_id", pid), ("en.name", nm), ("children", v)]
        = .error (.IdError ("ERROR: " ++ path ++ ": invalid children list: " ++ v))) ∧
    (¬((splitComma (stripSpaces v)).contains "none" = true
        ∨ (splitComma (stripSpaces v)).contains "unknown" = true) →
      (import_redpanda initGraph path
          [("_id", pid), ("en.name", nm), ("children", v)]).map (fun g => g.edges)
        = .ok ((splitComma (stripSpaces v)).map
            (fun c => [("_out", pid), ("_in", c), ("_label", "family")]))) := by
  refine ⟨?_, ?_, ?_⟩
  · rintro (h | h) <;>
      simp +decide [import_children_record pid nm v path hnm, childrenEdges, h, Except.map]
  · intro h1 h2
    have hce : childrenEdges path pid v
        = .error (.IdError ("ERROR: " ++ path ++ ": invalid children list: " ++ v)) := by
      unfold childrenEdges
      rw [if_pos h1, if_pos h2]
    simp [import_children_record pid nm v path hnm, hce]
  · intro h
    have hce : childrenEdges path pid v
        = .ok ((splitComma (stripSpaces v)).map
            (fun c => [("_out", pid), ("_in", c), ("_label", "family")])) := by
      unfold childrenEdges
      rw [if_neg h]
    simp [import_children_record pid nm v path hnm, hce, Except.map]

/-- Witness for C7 at the concrete children value " none ". -/
theorem c7_children_tokens_witness :
    (import_redpanda initGraph "pandas/a/0001_a.txt"
        [("_id", "1"), ("en.name", "A"), ("children", " none ")]).map (fun g => g.edges)
      = .ok [] :=
  (c7_children_tokens "1" "A" " none " "pandas/a/0001_a.txt" (by decide)).1 (by decide)

/-- Ordering of dict entries by key, the comparison json.dumps sorts by. -/
abbrev keyLE (a b : String × String) : Prop := strLeB a.1 b.1 = true

/-- Totality of the lexicographic string comparison. -/
theorem strLeCL_total (x y : List Char) : strLeCL x y = true ∨ strLeCL y x = true := by
  induction x generalizing y with
  | nil => left; rfl
  | cons a as ih =>
    cases y with
    | nil => right; rfl
    | cons b bs =>
      rcases lt_trichotomy a b with h | h | h
      · left; simp [strLeCL, h]
      · subst h
        simpa [strLeCL, lt_irrefl] using ih bs
      · right; simp [strLeCL, h]

/-- Antisymmetry of the lexicographic string comparison. -/
theorem strLeCL_antisymm (x y : List Char) (h1 : strLeCL x y = true)
    (h2 : strLeCL y x = true) : x = y := by
  induction x generalizing y with
  | nil =>
    cases y with
    | nil => rfl
    | cons b bs => simp [strLeCL] at h2
  | cons a as ih =>
    cases y with
    | nil => simp [strLeCL] at h1
    | cons b bs =>
      rcases lt_trichotomy a b with h | h | h
      · simp [strLeCL, h, lt_asymm h] at h2
      · subst h
        simp [strLeCL, lt_irrefl] at h1 h2
        rw [ih bs h1 h2]
      · simp [strLeCL, h, lt_asymm h] at h1

/-- Transitivity of the lexicographic string comparison. -/
theorem strLeCL_trans (x y z : List Char) (h1 : strLeCL x y = true)
    (h2 : strLeCL y z = true) : strLeCL x z = true := by
  induction x generalizing y z with
  | nil => rfl
  | cons a as ih =>
    cases y with
    | nil => simp [strLeCL] at h1
    | cons b bs =>
      cases z with
      | nil => simp [strLeCL] at h2
      | cons c cs =>
        rcases lt_trichotomy a b with hab | hab | hab
        · rcases lt_trichotomy b c with hbc | hbc | hbc
          · simp [strLeCL, lt_trans hab hbc]
          · subst hbc; simp [strLeCL, hab]
          · simp [strLeCL, hbc, lt_asymm hbc] at h2
        · subst hab
          rcases lt_trichotomy a c with hac | hac | hac
          · simp [strLeCL, hac]
          · subst hac
            simp [strLeCL, lt_irrefl] at h1 h2 ⊢
            exact ih bs cs h1 h2
          · simp [strLeCL, hac, lt_asymm hac] at h2
        · simp [strLeCL, hab, lt_asymm hab] at h1

/-- String-level transitivity. -/
theorem strLeB_trans {a b c : String} (h1 : strLeB a b = true)
    (h2 : strLeB b c = true) : strLeB a c = true :=
  strLeCL_trans _ _ _ h1 h2

/-- String-level antisymmetry. -/
theorem strLeB_antisymm {a b : String} (h1 : strLeB a b = true)
    (h2 : strLeB b a = true) : a = b := by
  cases a with
  | mk da =>
    cases b with
    | mk db => exact congrArg String.mk (strLeCL_antisymm da db h1 h2)

/-- String-level totality. -/
theorem strLeB_total (a b : String) : strLeB a b = true ∨ strLeB b a = true :=
  strLeCL_total _ _

/-- Inserting into a dict produces a permutation of consing. -/
theorem insertByKey_perm (p : String × String) (l : Dict) :
    (insertByKey p l).Perm (p :: l) := by
  induction l with
  | nil => exact List.Perm.refl _
  | cons q qs ih =>
    by_cases h : strLeB p.1 q.1 = true
    · simp only [insertByKey, if_pos h]
      exact List.Perm.refl _
    · simp only [insertByKey, if_neg h]
      exact (ih.cons q).trans (List.Perm.swap p q qs)

/-- The key sort permutes its input. -/
theorem sortByKey_perm (d : Dict) : (sortByKey d).Perm d := by
  induction d with
  | nil => exact List.Perm.refl _
  | cons x xs ih =>
    exact (insertByKey_perm x (sortByKey xs)).trans (ih.cons x)

/-- Insertion preserves key-sortedness. -/
theorem insertByKey_sorted (p : String × String) (l : Dict)
    (hl : l.Pairwise keyLE) : (insertByKey p l).Pairwise keyLE := by
  induction l with
  | nil => simp [insertByKey]
  | cons q qs ih =>
    rcases List.pairwise_cons.mp hl with ⟨hq, hqs⟩
    by_cases h : strLeB p.1 q.1 = true
    · simp only [insertByKey, if_pos h]
      refine List.pairwise_cons.mpr ⟨?_, hl⟩
      intro x hx
      rcases List.mem_cons.mp hx with rfl | hx
      · exact h
      · exact strLeB_trans h (hq x hx)
    · simp only [insertByKey, if_neg h]
      refine List.pairwise_cons.mpr ⟨?_, ih hqs⟩
      intro x hx
      have hx' := (insertByKey_perm p qs).mem_iff.mp hx
      rcases List.mem_cons.mp hx' with rfl | hx'
      · rcases strLeB_total x.1 q.1 with ht | ht
        · exact absurd ht h
        · exact ht
      · exact hq x hx'

/-- The key sort yields a key-sorted dict. -/
theorem sortByKey_sorted (d : Dict) : (sortByKey d).Pairwise keyLE := by
  induction d with
  | nil => simp [sortByKey]
  | cons x xs ih => exact insertByKey_sorted x (sortByKey xs) ih

/-- Two key-sorted permutations of each other with duplicate-free keys
are equal: the sorted form of a dict is canonical. -/
theorem sorted_perm_nodup_eq : ∀ l1 l2 : Dict, l1.Perm l2 →
    l1.Pairwise keyLE → l2.Pairwise keyLE → (l1.map Prod.fst).Nodup → l1 = l2 := by
  intro l1
  induction l1 with
  | nil =>
    intro l2 hp _ _ _
    exact (hp.symm.eq_nil).symm
  | cons a t1 ih =>
    intro l2 hp hs1 hs2 hnd
    cases l2 with
    | nil => exact absurd hp.eq_nil (List.cons_ne_nil a t1)
    | cons b t2 =>
      have hab : a = b := by
        have hmem : a ∈ b :: t2 := hp.mem_iff.mp (List.mem_cons_self a t1)
        rcases List.mem_cons.mp hmem with h | h
        · exact h
        · have hmem2 : b ∈ a :: t1 := hp.symm.mem_iff.mp (List.mem_cons_self b t2)
          rcases List.mem_cons.mp hmem2 with h' | h'
          · exact h'.symm
          · exfalso
            have h1 : keyLE a b := (List.pairwise_cons.mp hs1).1 b h'
            have h2 : keyLE b a := (List.pairwise_cons.mp hs2).1 a h
            have hk : a.1 = b.1 := strLeB_antisymm h1 h2
            have hmk : a.1 ∈ t1.map Prod.fst := by
              rw [hk]; exact List.mem_map_of_mem Prod.fst h'
            simp only [List.map_cons, List.nodup_cons] at hnd
            exact hnd.1 hmk
      subst hab
      have hnd' : (t1.map Prod.fst).Nodup := by
        simp only [List.map_cons, List.nodup_cons] at hnd
        exact hnd.2
      rw [ih t2 hp.cons_inv (List.pairwise_cons.mp hs1).2
        (List.pairwise_cons.mp hs2).2 hnd']

/-- Dicts holding the same pairs sort to the same canonical list. -/
theorem sortByKey_eq_of_perm (d1 d2 : Dict) (hp : d1.Perm d2)
    (hnd : (d1.map Prod.fst).Nodup) : sortByKey d1 = sortByKey d2 := by
  refine sorted_perm_nodup_eq _ _ ?_ (sortByKey_sorted d1) (sortByKey_sorted d2) ?_
  · exact (sortByKey_perm d1).trans (hp.trans (sortByKey_perm d2).symm)
  · exact (((sortByKey_perm d1).map Prod.fst).nodup_iff).mpr hnd

/-- Serialization of a dict depends only on its key/value mapping, not on
field order. -/
theorem dumpDict_congr (d1 d2 : Dict) (hp : d1.Perm d2)
    (hnd : (d1.map Prod.fst).Nodup) : dumpDict d1 = dumpDict d2 := by
  unfold dumpDict
  rw [sortByKey_eq_of_perm d1 d2 hp hnd]

/-- Pointwise field-order independence lifts to vertex lists. -/
theorem dumpDictList_congr (l1 l2 : List Dict)
    (h : List.Forall₂ (fun v w => v.Perm w ∧ (v.map Prod.fst).Nodup) l1 l2) :
    dumpDictList l1 = dumpDictList l2 := by
  unfold dumpDictList
  have hmap : l1.map dumpDict = l2.map dumpDict := by
    induction h with
    | nil => rfl
    | cons hvw _ ih =>
      simp only [List.map_cons, ih]
      rw [dumpDict_congr _ _ hvw.1 hvw.2]
  rw [hmap]

/-- C9: the exporter is a deterministic pure function of the store, and
its byte output depends only on the edge list, the zoo count, and each
vertex's key/value mapping: stores whose vertices hold the same fields
in any order (keys duplicate-free, as import builds them) serialize to
byte-identical JSON, reflecting the sorted-keys canonical form. -/
theorem c9_export_deterministic (g g' : RedPandaGraph)
    (he : g.edges = g'.edges)
    (hz : g.zoos.length = g'.zoos.length)
    (hv : List.Forall₂ (fun v w => v.Perm w ∧ (v.map Prod.fst).Nodup)
      g.vertices g'.vertices) :
    export_json_graph g = export_json_graph g' := by
  unfold export_json_graph dumpExport
  rw [he, hz, hv.length_eq, dumpDictList_congr _ _ hv]

/-- Witness for C9: two stores differing only in vertex field order and
bookkeeping file lists export identical bytes. -/
theorem c9_export_deterministic_witness :
    export_json_graph
      { edges := [[("_out", "1"), ("_in", "-5"), ("_label", "zoo")]],
        vertices := [[("b", "2"), ("a", "1")]], zoos := [[("_id", "-5")]],
        panda_files := [], zoo_files := [] }
    = export_json_graph
      { edges := [[("_out", "1"), ("_in", "-5"), ("_label", "zoo")]],
        vertices := [[("a", "1"), ("b", "2")]], zoos := [[("_id", "-5")]],
        panda_files := ["x"], zoo_files := ["y"] } :=
  c9_export_deterministic _ _ rfl rfl
    (List.Forall₂.cons ⟨by decide, by decide⟩ List.Forall₂.nil)

/-- Membership from a successful lookup. -/
theorem dget_mem {d : Dict} {k v : String} (h : dget d k = some v) : (k, v) ∈ d := by
  induction d with
  | nil => simp [dget] at h
  | cons p rest ih =>
    rcases p with ⟨k', v'⟩
    by_cases hk : k' = k
    · subst hk
      simp [dget] at h
      simp [h]
    · simp [dget, hk] at h
      exact List.mem_cons_of_mem _ (ih h)

/-- Dict-equal vertices agree on their _id entry. -/
theorem deq_id {z v : Dict} {i : String} (hd : deq z v = true)
    (hv : dget v "_id" = some i) : dget z "_id" = some i := by
  have hsub : dsub v z = true := by
    unfold deq at hd
    simp only [Bool.and_eq_true] at hd
    exact hd.2
  have hmem : ("_id", i) ∈ v := dget_mem hv
  have := (List.all_eq_true.mp hsub) _ hmem
  simpa using this

/-- The id comprehension pairs each entry with its _id value. -/
theorem idsOf_forall2 : ∀ (ds : List Dict) (ids : List String),
    idsOf ds = .ok ids → List.Forall₂ (fun d i => dget d "_id" = some i) ds ids := by
  intro ds
  induction ds with
  | nil =>
    intro ids h
    simp [idsOf] at h
    simp [h.symm]
  | cons d rest ih =>
    intro ids h
    unfold idsOf at h
    cases hg : dget d "_id" with
    | none => rw [hg] at h; exact absurd h (by simp)
    | some i =>
      rw [hg] at h
      cases hr : idsOf rest with
      | error e => rw [hr] at h; exact absurd h (by simp)
      | ok is' =>
        rw [hr] at h
        cases h
        exact List.Forall₂.cons hg (ih is' hr)

/-- An empty duplicate list means the ids are pairwise distinct. -/
theorem dupeAux_eq_nil : ∀ (l seen : List String), dupeAux l seen = [] →
    l.Nodup ∧ ∀ x ∈ l, x ∉ seen := by
  intro l
  induction l with
  | nil => intro seen _; simp
  | cons x xs ih =>
    intro seen h
    by_cases hc : x ∈ seen
    · simp [dupeAux, hc] at h
    · simp only [dupeAux] at h
      rw [if_neg (by simpa using hc)] at h
      rcases ih (seen ++ [x]) h with ⟨hnd, hmem⟩
      have hxnot : x ∉ xs := by
        intro hx
        exact hmem x hx (List.mem_append_right seen (List.mem_singleton.mpr rfl))
      refine ⟨List.nodup_cons.mpr ⟨hxnot, hnd⟩, ?_⟩
      intro y hy
      rcases List.mem_cons.mp hy with rfl | hy
      · exact hc
      · intro hseen
        exact hmem y hy (List.mem_append_left _ hseen)

/-- A passing duplicate-id check yields a duplicate-free id list. -/
theorem check_dup_ok_nodup {ds : List Dict}
    (h : check_dataset_duplicate_ids ds = .ok ()) :
    ∃ ids, idsOf ds = .ok ids ∧ ids.Nodup := by
  unfold check_dataset_duplicate_ids at h
  cases hg : idsOf ds with
  | error e => rw [hg] at h; exact absurd h (by simp)
  | ok ids =>
    rw [hg] at h
    dsimp only at h
    by_cases hd : (dupeIds ids).length > 0
    · rw [if_pos hd] at h; exact absurd h (by simp)
    · refine ⟨ids, rfl, ?_⟩
      have hnil : dupeIds ids = [] := by
        rcases List.eq_nil_or_concat (dupeIds ids) with hn | ⟨l, a, ha⟩
        · exact hn
        · exfalso; apply hd; rw [ha]; simp
      exact (dupeAux_eq_nil ids [] hnil).1

/-- No vertex matches a dict whose id is absent from the id list. -/
theorem countP_deq_zero {z : Dict} {i : String} (hz : dget z "_id" = some i) :
    ∀ (vs : List Dict) (ids : List String),
    List.Forall₂ (fun d j => dget d "_id" = some j) vs ids → i ∉ ids →
    vs.countP (fun v => deq z v) = 0 := by
  intro vs ids hf
  induction hf with
  | nil => intro _; rfl
  | @cons d j rest restIds hdj hrest ih =>
    intro hni
    have hij : i ≠ j := fun he => hni (he ▸ List.mem_cons_self j restIds)
    have hd : deq z d = false := by
      cases hdq : deq z d with
      | false => rfl
      | true =>
        exfalso
        have := deq_id hdq hdj
        rw [hz] at this
        exact hij (Option.some.inj this)
    rw [List.countP_cons]
    have hni' : i ∉ restIds := fun hm => hni (List.mem_cons_of_mem j hm)
    simp [hd, ih hni']

/-- With pairwise-distinct ids, at most one vertex equals any given
dict, because equal dicts share their _id. -/
theorem countP_deq_le_one {z : Dict} : ∀ (vs : List Dict) (ids : List String),
    List.Forall₂ (fun d j => dget d "_id" = some j) vs ids → ids.Nodup →
    vs.countP (fun v => deq z v) ≤ 1 := by
  intro vs ids hf
  induction hf with
  | nil => intro _; simp
  | @cons d j rest restIds hdj hrest ih =>
    intro hnd
    rcases List.nodup_cons.mp hnd with ⟨hjn, hnd'⟩
    rw [List.countP_cons]
    cases hdq : deq z d with
    | false => simp [ih hnd']
    | true =>
      have hzj : dget z "_id" = some j := deq_id hdq hdj
      have := countP_deq_zero hzj rest restIds hrest hjn
      simp [this]

/-- A successful build implies the vertex duplicate-id check passed. -/
theorem build_ok_dup_check (zfs pfs : List (String × Dict)) (g : RedPandaGraph)
    (hb : build_graph zfs pfs = .ok g) :
    check_dataset_duplicate_ids g.vertices = .ok () := by
  unfold build_graph at hb
  cases h1 : import_tree initGraph zfs import_zoo verify_zoos with
  | error e => rw [h1] at hb; exact absurd hb (by simp)
  | ok gz =>
    rw [h1] at hb
    unfold import_tree at hb
    dsimp only at hb
    cases h2 : importFold import_redpanda gz pfs with
    | error e => rw [h2] at hb; exact absurd hb (by simp)
    | ok g2 =>
      rw [h2] at hb
      dsimp only at hb
      cases h3 : verify_pandas g2 with
      | error e => rw [h3] at hb; exact absurd hb (by simp)
      | ok u =>
        rw [h3] at hb
        dsimp only at hb
        cases hb
        unfold verify_pandas at h3
        cases h4 : check_dataset_duplicate_ids g.vertices with
        | error e => rw [h4] at h3; exact absurd h3 (by simp)
        | ok u2 => rfl

/-- C10: after any successful build, no dict (in particular no zoo
vertex) occurs more than once in the combined vertex list: the
membership test before appending a referenced zoo vertex, backed by the
duplicate-id check, keeps every later reference from duplicating it. -/
theorem c10_zoo_vertex_at_most_once (zfs pfs : List (String × Dict))
    (g : RedPandaGraph) (hb : build_graph zfs pfs = .ok g) (z : Dict) :
    g.vertices.countP (fun v => deq z v) ≤ 1 := by
  rcases check_dup_ok_nodup (build_ok_dup_check zfs pfs g hb) with ⟨ids, hids, hnd⟩
  exact countP_deq_le_one g.vertices ids (idsOf_forall2 g.vertices ids hids) hnd

/-- The field loop only appends to the vertex list. -/
theorem process_vertices_extend (zoos : List Dict) (path pid : String) :
    ∀ (fields : List (String × String)) (vs pv pe vs' pv' pe'),
    processPandaFields zoos path pid fields (vs, pv, pe) = .ok (vs', pv', pe') →
    ∃ t, vs' = vs ++ t := by
  intro fields
  induction fields with
  | nil =>
    intro vs pv pe vs' pv' pe' h
    simp only [processPandaFields, Except.ok.injEq, Prod.mk.injEq] at h
    exact ⟨[], by simp [h.1.symm]⟩
  | cons f rest ih =>
    intro vs pv pe vs' pv' pe' h
    rcases f with ⟨k, v⟩
    simp only [processPandaFields] at h
    split at h
    · -- name branch
      split at h
      · exact absurd h (by simp)
      · exact ih _ _ _ _ _ _ h
    · split at h
      · -- gender branch
        split at h
        · exact absurd h (by simp)
        · exact ih _ _ _ _ _ _ h
      · split at h
        · -- zoo branch
          split at h
          · exact absurd h (by simp)
          · split at h
            · exact absurd h (by simp)
            · split at h
              · exact absurd h (by simp)
              · exact absurd h (by simp)
              · rename_i x0 zv tl heq
                by_cases hm : (vs.any fun w => deq zv w) = true
                · rw [if_pos hm] at h
                  exact ih _ _ _ _ _ _ h
                · rw [if_neg hm] at h
                  rcases ih _ _ _ _ _ _ h with ⟨t, ht⟩
                  exact ⟨zv :: t, by simp [ht]⟩
        · split at h
          · -- children branch
            split at h
            · exact absurd h (by simp)
            · exact ih _ _ _ _ _ _ h
          · exact ih _ _ _ _ _ _ h

/-- The value the field loop leaves under _id: the last _id field wins. -/
def lastIdVal : List (String × String) → Option String → Option String
  | [], acc => acc
  | (k, v) :: rest, acc => lastIdVal rest (if k = "_id" then some v else acc)

/-- Lookup after setting the same key. -/
theorem dget_dset_self (d : Dict) (k v : String) : dget (dset d k v) k = some v := by
  induction d with
  | nil => simp [dset, dget]
  | cons p rest ih =>
    rcases p with ⟨k', v'⟩
    by_cases hk : k' = k
    · subst hk; simp [dset, dget]
    · simp [dset, dget, hk, ih]

/-- Lookup after setting a different key. -/
theorem dget_dset_ne (d : Dict) {k' k : String} (v : String) (h : k' ≠ k) :
    dget (dset d k' v) k = dget d k := by
  induction d with
  | nil => simp [dset, dget, h]
  | cons p rest ih =>
    rcases p with ⟨k0, v0⟩
    by_cases hk : k0 = k'
    · subst hk; simp [dset, dget, h]
    · simp [dset, dget, hk, ih]

/-- The panda vertex ends the field loop with the last _id field value;
every branch writes through dset under its own field key. -/
theorem process_pv_id (zoos : List Dict) (path pid : String) :
    ∀ (fields : List (String × String)) (vs pv pe vs' pv' pe'),
    processPandaFields zoos path pid fields (vs, pv, pe) = .ok (vs', pv', pe') →
    dget pv' "_id" = lastIdVal fields (dget pv "_id") := by
  intro fields
  induction fields with
  | nil =>
    intro vs pv pe vs' pv' pe' h
    simp only [processPandaFields, Except.ok.injEq, Prod.mk.injEq] at h
    rw [← h.2.1, lastIdVal]
  | cons f rest ih =>
    intro vs pv pe vs' pv' pe' h
    rcases f with ⟨k, v⟩
    by_cases hk : k = "_id"
    · subst hk
      simp only [processPandaFields] at h
      rw [if_neg (by decide), if_neg (by decide), if_neg (by decide),
        if_neg (by decide)] at h
      rw [ih _ _ _ _ _ _ h, dget_dset_self]
      simp [lastIdVal]
    · simp only [processPandaFields] at h
      have hval : lastIdVal ((k, v) :: rest) (dget pv "_id")
          = lastIdVal rest (dget pv "_id") := by
        simp [lastIdVal, hk]
      rw [hval]
      split at h
      · split at h
        · exact absurd h (by simp)
        · rw [ih _ _ _ _ _ _ h, dget_dset_ne _ _ hk]
      · split at h
        · split at h
          · exact absurd h (by simp)
          · rw [ih _ _ _ _ _ _ h, dget_dset_ne _ _ hk]
        · split at h
          · split at h
            · exact absurd h (by simp)
            · split at h
              · exact absurd h (by simp)
              · split at h
                · exact absurd h (by simp)
                · exact absurd h (by simp)
                · exact ih _ _ _ _ _ _ h
          · split at h
            · split at h
              · exact absurd h (by simp)
              · exact ih _ _ _ _ _ _ h
            · rw [ih _ _ _ _ _ _ h, dget_dset_ne _ _ hk]

/-- Fields without _id leave the accumulator unchanged. -/
theorem lastIdVal_not_mem : ∀ (fields : List (String × String)) (acc : Option String),
    "_id" ∉ fields.map Prod.fst → lastIdVal fields acc = acc := by
  intro fields
  induction fields with
  | nil => intro acc _; rfl
  | cons f rest ih =>
    rcases f with ⟨k, v⟩
    intro acc hmem
    simp only [List.map_cons, List.mem_cons] at hmem
    push_neg at hmem
    have hkne : ¬ k = "_id" := fun he => hmem.1 he.symm
    simp only [lastIdVal, if_neg hkne]
    exact ih acc hmem.2

/-- With duplicate-free keys the last _id value is the looked-up one. -/
theorem lastIdVal_eq_dget : ∀ (fields : List (String × String)),
    (fields.map Prod.fst).Nodup → lastIdVal fields none = dget fields "_id" := by
  intro fields
  induction fields with
  | nil => intro _; rfl
  | cons f rest ih =>
    rcases f with ⟨k, v⟩
    intro hnd
    simp only [List.map_cons, List.nodup_cons] at hnd
    by_cases hk : k = "_id"
    · subst hk
      simp only [lastIdVal, if_pos rfl, dget, if_pos rfl]
      exact lastIdVal_not_mem rest (some v) hnd.1
    · simp only [lastIdVal, if_neg hk, dget, if_neg hk]
      exact ih hnd.2

/-- One panda import appends to the vertex list, leaves the zoo list
unchanged, and contributes a vertex carrying the record's _id. -/
theorem import_redpanda_vertices (g : RedPandaGraph) (path : String) (r : Dict)
    (g' : RedPandaGraph) (h : import_redpanda g path r = .ok g') :
    (∃ t, g'.vertices = g.vertices ++ t) ∧ g'.zoos = g.zoos ∧
    ((r.map Prod.fst).Nodup → ∃ v ∈ g'.vertices, dget v "_id" = dget r "_id") := by
  unfold import_redpanda at h
  cases h1 : cfgGet r "en.name" with
  | error e => rw [h1] at h; exact absurd h (by simp)
  | ok nm =>
    rw [h1] at h
    dsimp only at h
    cases h2 : cfgGet r "_id" with
    | error e => rw [h2] at h; exact absurd h (by simp)
    | ok pid =>
      rw [h2] at h
      dsimp only at h
      cases h3 : processPandaFields g.zoos path pid r (g.vertices, [], []) with
      | error e => rw [h3] at h; exact absurd h (by simp)
      | ok st =>
        rcases st with ⟨vs, pv, pe⟩
        rw [h3] at h
        dsimp only at h
        cases h
        rcases process_vertices_extend g.zoos path pid r _ _ _ _ _ _ h3 with ⟨t, ht⟩
        refine ⟨⟨t ++ [pv], by simp [ht]⟩, rfl, ?_⟩
        intro hnd
        refine ⟨pv, by simp, ?_⟩
        have hid := process_pv_id g.zoos path pid r _ _ _ _ _ _ h3
        rw [hid]
        have : dget ([] : Dict) "_id" = none := rfl
        rw [this, lastIdVal_eq_dget r hnd]

/-- The panda phase only appends to the vertex list. -/
theorem importFold_panda_extends : ∀ (pfs : List (String × Dict)) (g g' : RedPandaGraph),
    importFold import_redpanda g pfs = .ok g' →
    (∃ t, g'.vertices = g.vertices ++ t) := by
  intro pfs
  induction pfs with
  | nil =>
    intro g g' h
    simp only [importFold, Except.ok.injEq] at h
    exact ⟨[], by simp [h]⟩
  | cons pr rest ih =>
    intro g g' h
    rcases pr with ⟨p, r⟩
    simp only [importFold] at h
    cases h1 : import_redpanda g p r with
    | error e => rw [h1] at h; exact absurd h (by simp)
    | ok g1 =>
      rw [h1] at h
      rcases import_redpanda_vertices g p r g1 h1 with ⟨⟨t1, ht1⟩, _, _⟩
      rcases ih g1 g' h with ⟨t2, ht2⟩
      exact ⟨t1 ++ t2, by simp [ht2, ht1]⟩

/-- Every record imported during the panda phase has a vertex with its
_id in the final vertex list. -/
theorem importFold_panda_ids : ∀ (pfs : List (String × Dict)) (g g' : RedPandaGraph),
    importFold import_redpanda g pfs = .ok g' →
    ∀ pr ∈ pfs, (pr.2.map Prod.fst).Nodup →
    ∃ v ∈ g'.vertices, dget v "_id" = dget pr.2 "_id" := by
  intro pfs
  induction pfs with
  | nil => intro g g' _ pr hpr; exact absurd hpr (by simp)
  | cons q rest ih =>
    intro g g' h pr hpr hnd
    rcases q with ⟨p, r⟩
    simp only [importFold] at h
    cases h1 : import_redpanda g p r with
    | error e => rw [h1] at h; exact absurd h (by simp)
    | ok g1 =>
      rw [h1] at h
      rcases List.mem_cons.mp hpr with rfl | hpr'
      · rcases import_redpanda_vertices g p r g1 h1 with ⟨_, _, hid⟩
        rcases hid hnd with ⟨v, hv, hvid⟩
        rcases importFold_panda_extends rest g1 g' h with ⟨t, ht⟩
        exact ⟨v, by rw [ht]; exact List.mem_append_left t hv, hvid⟩
      · exact ih g1 g' h pr hpr' hnd

/-- A successful build runs the panda fold to completion on the
zoo-phase store. -/
theorem build_ok_panda_fold (zfs pfs : List (String × Dict)) (g : RedPandaGraph)
    (hb : build_graph zfs pfs = .ok g) :
    ∃ gz, importFold import_redpanda gz pfs = .ok g := by
  unfold build_graph at hb
  cases h1 : import_tree initGraph zfs import_zoo verify_zoos with
  | error e => rw [h1] at hb; exact absurd hb (by simp)
  | ok gz =>
    rw [h1] at hb
    unfold import_tree at hb
    dsimp only at hb
    cases h2 : importFold import_redpanda gz pfs with
    | error e => rw [h2] at hb; exact absurd hb (by simp)
    | ok g2 =>
      rw [h2] at hb
      dsimp only at hb
      cases h3 : verify_pandas g2 with
      | error e => rw [h3] at hb; exact absurd hb (by simp)
      | ok u =>
        rw [h3] at hb
        dsimp only at hb
        cases hb
        exact ⟨gz, h2⟩

/-- Modelled from the spec: a vertex of the combined list is a zoo
vertex when it is one of the imported zoo entries (dict equality, the
membership the importer itself uses). -/
def isZooVertex (g : RedPandaGraph) (v : Dict) : Bool :=
  g.zoos.any (fun z => deq z v)

/-- Modelled from the spec: the count of zoo vertices in the vertex
list, the number the spec says totals.zoos reports. -/
def specZooCount (g : RedPandaGraph) : Nat :=
  g.vertices.countP (isZooVertex g)

/-- Modelled from the spec: the count of non-zoo vertices in the vertex
list, the number the spec says totals.pandas reports. -/
def specPandaCount (g : RedPandaGraph) : Nat :=
  g.vertices.countP (fun v => !(isZooVertex g v))

/-- A predicate and its negation count every element once. -/
theorem countP_not_add {a : Type} (p : a → Bool) (l : List a) :
    l.countP p + l.countP (fun x => !(p x)) = l.length := by
  induction l with
  | nil => rfl
  | cons x xs ih =>
    rw [List.countP_cons, List.countP_cons]
    cases h : p x <;> simp [h] <;> omega


/-- Witness for C10: the Sample Zoo referenced by two animal records
appears in the vertex list exactly once. -/
theorem c10_zoo_vertex_at_most_once_witness :
    build_graph
      [("zoos/jp/0001_sample.txt", [("_id", "5"), ("en.name", "Sample Zoo")])]
      [("pandas/jp/0100_mochi.txt", [("_id", "100"), ("en.name", "Mochi"), ("birthplace", "5")]),
       ("pandas/jp/0101_kiku.txt", [("_id", "101"), ("en.name", "Kiku"), ("zoo", "5")])]
    = .ok { edges := [[("_out", "100"), ("_in", "-5"), ("_label", "birthplace")],
                      [("_out", "101"), ("_in", "-5"), ("_label", "zoo")]],
            vertices := [[("_id", "-5"), ("en.name", "Sample Zoo")],
                         [("_id", "100"), ("en.name", "Mochi")],
                         [("_id", "101"), ("en.name", "Kiku")]],
            zoos := [[("_id", "-5"), ("en.name", "Sample Zoo")]],
            panda_files := ["pandas/jp/0100_mochi.txt", "pandas/jp/0101_kiku.txt"],
            zoo_files := ["zoos/jp/0001_sample.txt"] }
    ∧ (RedPandaGraph.mk
        [[("_out", "100"), ("_in", "-5"), ("_label", "birthplace")],
         [("_out", "101"), ("_in", "-5"), ("_label", "zoo")]]
        [[("_id", "-5"), ("en.name", "Sample Zoo")],
         [("_id", "100"), ("en.name", "Mochi")],
         [("_id", "101"), ("en.name", "Kiku")]]
        [[("_id", "-5"), ("en.name", "Sample Zoo")]]
        ["pandas/jp/0100_mochi.txt", "pandas/jp/0101_kiku.txt"]
        ["zoos/jp/0001_sample.txt"]).vertices.countP
        (fun v => deq [("_id", "-5"), ("en.name", "Sample Zoo")] v) ≤ 1 :=
  ⟨rfl,
   c10_zoo_vertex_at_most_once
     [("zoos/jp/0001_sample.txt", [("_id", "5"), ("en.name", "Sample Zoo")])]
     [("pandas/jp/0100_mochi.txt", [("_id", "100"), ("en.name", "Mochi"), ("birthplace", "5")]),
      ("pandas/jp/0101_kiku.txt", [("_id", "101"), ("en.name", "Kiku"), ("zoo", "5")])]
     _ rfl [("_id", "-5"), ("en.name", "Sample Zoo")]⟩

/-- Keys after a dict assignment: the old keys plus the assigned key. -/
theorem mem_keys_dset : ∀ (d : Dict) (k v x : String),
    x ∈ (dset d k v).map Prod.fst ↔ x ∈ d.map Prod.fst ∨ x = k := by
  intro d
  induction d with
  | nil => intro k v x; simp [dset]
  | cons p rest ih =>
    intro k v x
    rcases p with ⟨k0, v0⟩
    by_cases hk : k0 = k
    · subst hk
      simp [dset]
      tauto
    · simp [dset, hk, ih]
      tauto

/-- Dict assignment preserves duplicate-free keys. -/
theorem dset_keys_nodup : ∀ (d : Dict) (k v : String),
    (d.map Prod.fst).Nodup → ((dset d k v).map Prod.fst).Nodup := by
  intro d
  induction d with
  | nil => intro k v _; simp [dset]
  | cons p rest ih =>
    intro k v h
    rcases p with ⟨k0, v0⟩
    simp only [List.map_cons, List.nodup_cons] at h
    by_cases hk : k0 = k
    · subst hk
      have hd : dset ((k0, v0) :: rest) k0 v = (k0, v) :: rest := by simp [dset]
      rw [hd]
      simp only [List.map_cons, List.nodup_cons]
      exact h
    · simp only [dset, if_neg hk, List.map_cons, List.nodup_cons]
      refine ⟨?_, ih k v h.2⟩
      intro hmem
      rcases (mem_keys_dset rest k v k0).mp hmem with hm | hm
      · exact h.1 hm
      · exact hk hm

/-- With duplicate-free keys, every pair of a dict is its lookup result. -/
theorem dget_of_mem_nodup : ∀ (d : Dict) (k v : String),
    (d.map Prod.fst).Nodup → (k, v) ∈ d → dget d k = some v := by
  intro d
  induction d with
  | nil => intro k v _ hmem; cases hmem
  | cons p rest ih =>
    intro k v hnd hmem
    rcases p with ⟨k0, v0⟩
    simp only [List.map_cons, List.nodup_cons] at hnd
    rcases List.mem_cons.mp hmem with he | hm
    · cases he
      simp [dget]
    · have hk : k0 ≠ k := by
        intro he
        subst he
        exact hnd.1 (List.mem_map_of_mem Prod.fst hm)
      simp only [dget, if_neg hk]
      exact ih k v hnd.2 hm

/-- Python dict equality is reflexive on duplicate-free dicts. -/
theorem deq_refl_nodup {d : Dict} (h : (d.map Prod.fst).Nodup) : deq d d = true := by
  have hs : dsub d d = true := by
    unfold dsub
    rw [List.all_eq_true]
    intro p hp
    rcases p with ⟨k, v⟩
    simp [dget_of_mem_nodup d k v h hp]
  unfold deq
  rw [hs]
  rfl

/-- The zoo entry loop builds dicts with duplicate-free keys. -/
theorem zooEntry_nodup : ∀ (fields : List (String × String)) (acc entry : Dict),
    zooEntry fields acc = .ok entry → (acc.map Prod.fst).Nodup →
    (entry.map Prod.fst).Nodup := by
  intro fields
  induction fields with
  | nil =>
    intro acc entry h hnd
    simp only [zooEntry, Except.ok.injEq] at h
    rw [← h]
    exact hnd
  | cons f rest ih =>
    intro acc entry h hnd
    rcases f with ⟨k, v⟩
    simp only [zooEntry] at h
    by_cases hk : k = "_id"
    · rw [if_pos hk] at h
      cases hp : pyInt v with
      | error e => rw [hp] at h; exact absurd h (by simp)
      | ok n =>
        rw [hp] at h
        dsimp only at h
        exact ih _ _ h (dset_keys_nodup acc k _ hnd)
    · rw [if_neg hk] at h
      exact ih _ _ h (dset_keys_nodup acc k v hnd)

/-- One zoo import: vertices and edges untouched, one duplicate-free
entry appended to the zoo list. -/
theorem import_zoo_shape (g : RedPandaGraph) (path : String) (r : Dict)
    (g' : RedPandaGraph) (h : import_zoo g path r = .ok g') :
    g'.vertices = g.vertices ∧ g'.edges = g.edges ∧
    ∃ entry, g'.zoos = g.zoos ++ [entry] ∧ (entry.map Prod.fst).Nodup := by
  unfold import_zoo at h
  cases hz : zooEntry r [] with
  | error e => rw [hz] at h; exact absurd h (by simp)
  | ok entry =>
    rw [hz] at h
    dsimp only at h
    cases h
    exact ⟨rfl, rfl, entry, rfl, zooEntry_nodup r [] entry hz (by simp)⟩

/-- The zoo phase leaves vertices and edges untouched and only adds
duplicate-free zoo entries. -/
theorem importFold_zoo_shape : ∀ (zfs : List (String × Dict)) (g g' : RedPandaGraph),
    importFold import_zoo g zfs = .ok g' →
    g'.vertices = g.vertices ∧ g'.edges = g.edges ∧
    ((∀ z ∈ g.zoos, (z.map Prod.fst).Nodup) →
      ∀ z ∈ g'.zoos, (z.map Prod.fst).Nodup) := by
  intro zfs
  induction zfs with
  | nil =>
    intro g g' h
    simp only [importFold, Except.ok.injEq] at h
    subst h
    exact ⟨rfl, rfl, fun h => h⟩
  | cons pr rest ih =>
    intro g g' h
    rcases pr with ⟨p, r⟩
    simp only [importFold] at h
    cases h1 : import_zoo g p r with
    | error e => rw [h1] at h; exact absurd h (by simp)
    | ok g1 =>
      rw [h1] at h
      rcases import_zoo_shape g p r g1 h1 with ⟨hv, he, entry, hz, hnd⟩
      rcases ih g1 g' h with ⟨hv2, he2, hcarry⟩
      refine ⟨hv2.trans hv, he2.trans he, ?_⟩
      intro hall
      apply hcarry
      intro z0 hz0
      rw [hz] at hz0
      rcases List.mem_append.mp hz0 with hm | hm
      · exact hall z0 hm
      · rw [List.mem_singleton.mp hm]
        exact hnd

/-- The zoo comprehension selects exactly the zoos with the given id. -/
theorem selectZoos_mem : ∀ (zoos : List Dict) (zid : String) (l : List Dict),
    selectZoos zoos zid = .ok l → ∀ z ∈ l, z ∈ zoos ∧ dget z "_id" = some zid := by
  intro zoos
  induction zoos with
  | nil =>
    intro zid l h z hz
    simp only [selectZoos, Except.ok.injEq] at h
    subst h
    cases hz
  | cons z0 zs ih =>
    intro zid l h z hz
    simp only [selectZoos] at h
    cases hg : dget z0 "_id" with
    | none => rw [hg] at h; exact absurd h (by simp)
    | some v =>
      rw [hg] at h
      dsimp only at h
      cases hs : selectZoos zs zid with
      | error e => rw [hs] at h; exact absurd h (by simp)
      | ok rest =>
        rw [hs] at h
        dsimp only at h
        by_cases hv : v = zid
        · rw [if_pos hv] at h
          simp only [Except.ok.injEq] at h
          subst h
          rcases List.mem_cons.mp hz with rfl | hm
          · exact ⟨List.mem_cons_self _ _, hv ▸ hg⟩
          · rcases ih zid rest hs z hm with ⟨hz1, hz2⟩
            exact ⟨List.mem_cons_of_mem _ hz1, hz2⟩
        · rw [if_neg hv] at h
          simp only [Except.ok.injEq] at h
          subst h
          rcases ih zid rest hs z hz with ⟨hz1, hz2⟩
          exact ⟨List.mem_cons_of_mem _ hz1, hz2⟩

/-- Every edge the children branch emits carries the family label. -/
theorem childrenEdges_family : ∀ (path pid v : String) (es : List Dict),
    childrenEdges path pid v = .ok es →
    ∀ e ∈ es, dget e "_label" = some "family" := by
  intro path pid v es h e he
  simp only [childrenEdges] at h
  by_cases hc : ((splitComma (stripSpaces v)).contains "none" = true
      ∨ (splitComma (stripSpaces v)).contains "unknown" = true)
  · rw [if_pos hc] at h
    by_cases hl : 1 < (splitComma (stripSpaces v)).length
    · rw [if_pos hl] at h
      exact absurd h (by simp)
    · rw [if_neg hl] at h
      simp only [Except.ok.injEq] at h
      subst h
      cases he
  · rw [if_neg hc] at h
    simp only [Except.ok.injEq] at h
    subst h
    rcases List.mem_map.mp he with ⟨c, _, rfl⟩
    simp +decide [dget]

/-- An edge whose label is a captivity-location field name (it contains
birthplace or zoo). -/
abbrev zooLabeled (e : Dict) : Prop :=
  ∃ lbl, dget e "_label" = some lbl ∧
    (containsSub lbl "birthplace" = true ∨ containsSub lbl "zoo" = true)

/-- The field loop only appends to the local edge list. -/
theorem process_edges_extend (zoos : List Dict) (path pid : String) :
    ∀ (fields : List (String × String)) (vs pv pe vs' pv' pe'),
    processPandaFields zoos path pid fields (vs, pv, pe) = .ok (vs', pv', pe') →
    ∃ t, pe' = pe ++ t := by
  intro fields
  induction fields with
  | nil =>
    intro vs pv pe vs' pv' pe' h
    simp only [processPandaFields, Except.ok.injEq, Prod.mk.injEq] at h
    exact ⟨[], by simp [h.2.2.symm]⟩
  | cons f rest ih =>
    intro vs pv pe vs' pv' pe' h
    rcases f with ⟨k, v⟩
    simp only [processPandaFields] at h
    split at h
    · split at h
      · exact absurd h (by simp)
      · exact ih _ _ _ _ _ _ h
    · split at h
      · split at h
        · exact absurd h (by simp)
        · exact ih _ _ _ _ _ _ h
      · split at h
        · split at h
          · exact absurd h (by simp)
          · split at h
            · exact absurd h (by simp)
            · split at h
              · exact absurd h (by simp)
              · exact absurd h (by simp)
              · rename_i n hpy xc u hchk xs zv tl hsel
                rcases ih _ _ _ _ _ _ h with ⟨t, ht⟩
                exact ⟨[[("_out", pid), ("_in", pyIntStr (n * -1)), ("_label", k)]] ++ t,
                  by rw [ht, List.append_assoc]⟩
        · split at h
          · split at h
            · exact absurd h (by simp)
            · rename_i xce es hces
              rcases ih _ _ _ _ _ _ h with ⟨t, ht⟩
              exact ⟨es ++ t, by rw [ht, List.append_assoc]⟩
          · exact ih _ _ _ _ _ _ h

/-- Every zoo-labeled edge the field loop accumulates has its zoo entry
dict-equal to some vertex already in the live vertex list. -/
theorem process_zoo_edges (zoos : List Dict) (path pid : String)
    (hznd : ∀ z ∈ zoos, (z.map Prod.fst).Nodup) :
    ∀ (fields : List (String × String)) (vs pv pe vs' pv' pe'),
    processPandaFields zoos path pid fields (vs, pv, pe) = .ok (vs', pv', pe') →
    (∀ e ∈ pe, zooLabeled e → ∃ z ∈ zoos, dget z "_id" = dget e "_in" ∧
      ∃ w ∈ vs, deq z w = true) →
    ∀ e ∈ pe', zooLabeled e → ∃ z ∈ zoos, dget z "_id" = dget e "_in" ∧
      ∃ w ∈ vs', deq z w = true := by
  intro fields
  induction fields with
  | nil =>
    intro vs pv pe vs' pv' pe' h hinv e he hlbl
    simp only [processPandaFields, Except.ok.injEq, Prod.mk.injEq] at h
    rcases hinv e (by rw [h.2.2]; exact he) hlbl with ⟨z, hz, hid, w, hw, hdq⟩
    exact ⟨z, hz, hid, w, by rw [← h.1]; exact hw, hdq⟩
  | cons f rest ih =>
    intro vs pv pe vs' pv' pe' h hinv e he hlbl
    rcases f with ⟨k, v⟩
    simp only [processPandaFields] at h
    split at h
    · split at h
      · exact absurd h (by simp)
      · exact ih _ _ _ _ _ _ h hinv e he hlbl
    · split at h
      · split at h
        · exact absurd h (by simp)
        · exact ih _ _ _ _ _ _ h hinv e he hlbl
      · split at h
        · split at h
          · exact absurd h (by simp)
          · split at h
            · exact absurd h (by simp)
            · split at h
              · exact absurd h (by simp)
              · exact absurd h (by simp)
              · rename_i n hpy xc u hchk xs zv tl hsel
                have hzvm := selectZoos_mem zoos (pyIntStr (n * -1)) _ hsel zv (by simp)
                refine ih _ _ _ _ _ _ h ?_ e he hlbl
                intro e2 he2 hlbl2
                rcases List.mem_append.mp he2 with he3 | he3
                · rcases hinv e2 he3 hlbl2 with ⟨z, hz, hid, w2, hw2, hdq⟩
                  refine ⟨z, hz, hid, w2, ?_, hdq⟩
                  by_cases hm : (vs.any fun w3 => deq zv w3) = true
                  · rw [if_pos hm]; exact hw2
                  · rw [if_neg hm]; exact List.mem_append_left _ hw2
                · have he0 : e2 = [("_out", pid), ("_in", pyIntStr (n * -1)), ("_label", k)] :=
                    List.mem_singleton.mp he3
                  subst he0
                  refine ⟨zv, hzvm.1, ?_, ?_⟩
                  · rw [hzvm.2]; simp +decide [dget]
                  · by_cases hm : (vs.any fun w3 => deq zv w3) = true
                    · rw [if_pos hm]
                      rcases List.any_eq_true.mp hm with ⟨w3, hw3, hdq3⟩
                      exact ⟨w3, hw3, hdq3⟩
                    · rw [if_neg hm]
                      exact ⟨zv, List.mem_append_right _ (by simp),
                        deq_refl_nodup (hznd zv hzvm.1)⟩
        · split at h
          · split at h
            · exact absurd h (by simp)
            · rename_i xce es hces
              refine ih _ _ _ _ _ _ h ?_ e he hlbl
              intro e2 he2 hlbl2
              rcases List.mem_append.mp he2 with he3 | he3
              · exact hinv e2 he3 hlbl2
              · exfalso
                have hfam := childrenEdges_family path pid v es hces e2 he3
                rcases hlbl2 with ⟨lbl, hlg, hlc⟩
                rw [hfam] at hlg
                have hlf : lbl = "family" := (Option.some.inj hlg).symm
                subst hlf
                rcases hlc with hx | hx
                · exact absurd hx (by decide)
                · exact absurd hx (by decide)
          · exact ih _ _ _ _ _ _ h hinv e he hlbl

/-- Every vertex the field loop adds is a referenced zoo: it has a
zoo-labeled edge in the accumulated edge list targeting its id. -/
theorem process_vertex_provenance (zoos : List Dict) (path pid : String) :
    ∀ (fields : List (String × String)) (vs pv pe vs' pv' pe'),
    processPandaFields zoos path pid fields (vs, pv, pe) = .ok (vs', pv', pe') →
    ∀ w ∈ vs', w ∈ vs ∨ ∃ e ∈ pe', zooLabeled e ∧ dget e "_in" = dget w "_id" := by
  intro fields
  induction fields with
  | nil =>
    intro vs pv pe vs' pv' pe' h w hw
    simp only [processPandaFields, Except.ok.injEq, Prod.mk.injEq] at h
    left
    rw [h.1]
    exact hw
  | cons f rest ih =>
    intro vs pv pe vs' pv' pe' h w hw
    rcases f with ⟨k, v⟩
    simp only [processPandaFields] at h
    split at h
    · split at h
      · exact absurd h (by simp)
      · exact ih _ _ _ _ _ _ h w hw
    · split at h
      · split at h
        · exact absurd h (by simp)
        · exact ih _ _ _ _ _ _ h w hw
      · split at h
        · split at h
          · exact absurd h (by simp)
          · split at h
            · exact absurd h (by simp)
            · split at h
              · exact absurd h (by simp)
              · exact absurd h (by simp)
              · rename_i n hpy xc u hchk xs zv tl hsel
                rename_i hname hgend hbz xpy0
                rcases process_edges_extend zoos path pid rest _ _ _ _ _ _ h with ⟨t2, ht2⟩
                rcases ih _ _ _ _ _ _ h w hw with hw2 | hex
                · by_cases hm : (vs.any fun w2 => deq zv w2) = true
                  · rw [if_pos hm] at hw2
                    exact Or.inl hw2
                  · rw [if_neg hm] at hw2
                    rcases List.mem_append.mp hw2 with hw3 | hw3
                    · exact Or.inl hw3
                    · have hwzv : w = zv := List.mem_singleton.mp hw3
                      subst hwzv
                      right
                      have hzm := selectZoos_mem zoos (pyIntStr (n * -1)) _ hsel w (by simp)
                      refine ⟨[("_out", pid), ("_in", pyIntStr (n * -1)), ("_label", k)],
                        ?_, ⟨k, by simp +decide [dget], hbz⟩, ?_⟩
                      · rw [ht2]
                        exact List.mem_append_left _ (List.mem_append_right _ (by simp))
                      · rw [hzm.2]
                        simp +decide [dget]
                · exact Or.inr hex
        · split at h
          · split at h
            · exact absurd h (by simp)
            · exact ih _ _ _ _ _ _ h w hw
          · exact ih _ _ _ _ _ _ h w hw

/-- The components a successful panda import is built from. -/
theorem import_redpanda_shape (g : RedPandaGraph) (path : String) (r : Dict)
    (g' : RedPandaGraph) (h : import_redpanda g path r = .ok g') :
    ∃ pid vs pv pe,
      dget r "_id" = some pid ∧
      processPandaFields g.zoos path pid r (g.vertices, [], []) = .ok (vs, pv, pe) ∧
      g' = { edges := g.edges ++ pe, vertices := vs ++ [pv], zoos := g.zoos,
             panda_files := g.panda_files ++ [path], zoo_files := g.zoo_files } := by
  unfold import_redpanda at h
  cases h1 : cfgGet r "en.name" with
  | error e => rw [h1] at h; exact absurd h (by simp)
  | ok nm =>
    rw [h1] at h
    dsimp only at h
    cases h2 : cfgGet r "_id" with
    | error e => rw [h2] at h; exact absurd h (by simp)
    | ok pid =>
      rw [h2] at h
      dsimp only at h
      have hpid : dget r "_id" = some pid := by
        unfold cfgGet at h2
        cases hg : dget r "_id" with
        | none => rw [hg] at h2; exact absurd h2 (by simp)
        | some x =>
          rw [hg] at h2
          simp only [Except.ok.injEq] at h2
          rw [h2]
      cases h3 : processPandaFields g.zoos path pid r (g.vertices, [], []) with
      | error e => rw [h3] at h; exact absurd h (by simp)
      | ok st =>
        rcases st with ⟨vs, pv, pe⟩
        rw [h3] at h
        dsimp only at h
        cases h
        exact ⟨pid, vs, pv, pe, hpid, h3, rfl⟩

/-- One panda import only appends to the edge list. -/
theorem import_redpanda_edges_extend (g : RedPandaGraph) (path : String) (r : Dict)
    (g' : RedPandaGraph) (h : import_redpanda g path r = .ok g') :
    ∃ t, g'.edges = g.edges ++ t := by
  rcases import_redpanda_shape g path r g' h with ⟨pid, vs, pv, pe, _, _, hg'⟩
  exact ⟨pe, by rw [hg']⟩

/-- After one panda import, every vertex is an old vertex, a referenced
zoo witnessed by a zoo-labeled edge, or the new panda vertex carrying
the record's _id. -/
theorem import_redpanda_provenance (g : RedPandaGraph) (path : String) (r : Dict)
    (g' : RedPandaGraph) (h : import_redpanda g path r = .ok g')
    (hnd : (r.map Prod.fst).Nodup) :
    ∀ w ∈ g'.vertices, w ∈ g.vertices ∨
      (∃ e ∈ g'.edges, zooLabeled e ∧ dget e "_in" = dget w "_id") ∨
      dget w "_id" = dget r "_id" := by
  rcases import_redpanda_shape g path r g' h with ⟨pid, vs, pv, pe, hpid, hproc, hg'⟩
  subst hg'
  intro w hw
  dsimp only at hw ⊢
  rcases List.mem_append.mp hw with hw1 | hw1
  · rcases process_vertex_provenance g.zoos path pid r _ _ _ _ _ _ hproc w hw1 with hw2 | ⟨e, he, hze⟩
    · exact Or.inl hw2
    · exact Or.inr (Or.inl ⟨e, List.mem_append_right _ he, hze⟩)
  · have hwpv : w = pv := List.mem_singleton.mp hw1
    subst hwpv
    right; right
    have hid := process_pv_id g.zoos path pid r _ _ _ _ _ _ hproc
    rw [hid]
    have h0 : dget ([] : Dict) "_id" = none := rfl
    rw [h0, lastIdVal_eq_dget r hnd]

/-- One panda import preserves the zoo-edge-witness invariant. -/
theorem import_redpanda_zoo_edges (g : RedPandaGraph) (path : String) (r : Dict)
    (g' : RedPandaGraph) (h : import_redpanda g path r = .ok g')
    (hznd : ∀ z ∈ g.zoos, (z.map Prod.fst).Nodup)
    (hprev : ∀ e ∈ g.edges, zooLabeled e → ∃ z ∈ g.zoos,
      dget z "_id" = dget e "_in" ∧ ∃ w ∈ g.vertices, deq z w = true) :
    ∀ e ∈ g'.edges, zooLabeled e → ∃ z ∈ g'.zoos,
      dget z "_id" = dget e "_in" ∧ ∃ w ∈ g'.vertices, deq z w = true := by
  rcases import_redpanda_shape g path r g' h with ⟨pid, vs, pv, pe, hpid, hproc, hg'⟩
  subst hg'
  intro e he hlbl
  dsimp only at he ⊢
  rcases process_vertices_extend g.zoos path pid r _ _ _ _ _ _ hproc with ⟨t, ht⟩
  rcases List.mem_append.mp he with he1 | he1
  · rcases hprev e he1 hlbl with ⟨z, hz, hid, w, hw, hdq⟩
    refine ⟨z, hz, hid, w, ?_, hdq⟩
    apply List.mem_append_left
    rw [ht]
    exact List.mem_append_left _ hw
  · have hproc2 := process_zoo_edges g.zoos path pid hznd r _ _ _ _ _ _ hproc
      (by intro e2 he2 _; exact absurd he2 (by simp)) e he1 hlbl
    rcases hproc2 with ⟨z, hz, hid, w, hw, hdq⟩
    exact ⟨z, hz, hid, w, List.mem_append_left _ hw, hdq⟩

/-- The panda phase leaves the zoo list unchanged. -/
theorem importFold_panda_zoos : ∀ (pfs : List (String × Dict)) (g g' : RedPandaGraph),
    importFold import_redpanda g pfs = .ok g' → g'.zoos = g.zoos := by
  intro pfs
  induction pfs with
  | nil =>
    intro g g' h
    simp only [importFold, Except.ok.injEq] at h
    rw [h]
  | cons pr rest ih =>
    intro g g' h
    rcases pr with ⟨p, r⟩
    simp only [importFold] at h
    cases h1 : import_redpanda g p r with
    | error e => rw [h1] at h; exact absurd h (by simp)
    | ok g1 =>
      rw [h1] at h
      rcases import_redpanda_vertices g p r g1 h1 with ⟨_, hz, _⟩
      rw [ih g1 g' h, hz]

/-- The panda phase only appends to the edge list. -/
theorem importFold_panda_edges_extend : ∀ (pfs : List (String × Dict)) (g g' : RedPandaGraph),
    importFold import_redpanda g pfs = .ok g' → ∃ t, g'.edges = g.edges ++ t := by
  intro pfs
  induction pfs with
  | nil =>
    intro g g' h
    simp only [importFold, Except.ok.injEq] at h
    exact ⟨[], by simp [h]⟩
  | cons pr rest ih =>
    intro g g' h
    rcases pr with ⟨p, r⟩
    simp only [importFold] at h
    cases h1 : import_redpanda g p r with
    | error e => rw [h1] at h; exact absurd h (by simp)
    | ok g1 =>
      rw [h1] at h
      rcases import_redpanda_edges_extend g p r g1 h1 with ⟨t1, ht1⟩
      rcases ih g1 g' h with ⟨t2, ht2⟩
      exact ⟨t1 ++ t2, by simp [ht2, ht1]⟩

/-- After the panda phase, every vertex is an initial vertex, a
referenced zoo witnessed by a zoo-labeled edge, or an animal vertex
carrying some record's _id. -/
theorem importFold_panda_provenance : ∀ (pfs : List (String × Dict)) (g g' : RedPandaGraph),
    importFold import_redpanda g pfs = .ok g' →
    (∀ pr ∈ pfs, (pr.2.map Prod.fst).Nodup) →
    ∀ w ∈ g'.vertices, w ∈ g.vertices ∨
      (∃ e ∈ g'.edges, zooLabeled e ∧ dget e "_in" = dget w "_id") ∨
      ∃ pr ∈ pfs, dget w "_id" = dget pr.2 "_id" := by
  intro pfs
  induction pfs with
  | nil =>
    intro g g' h _ w hw
    simp only [importFold, Except.ok.injEq] at h
    subst h
    exact Or.inl hw
  | cons q rest ih =>
    intro g g' h hnd w hw
    rcases q with ⟨p, r⟩
    simp only [importFold] at h
    cases h1 : import_redpanda g p r with
    | error e => rw [h1] at h; exact absurd h (by simp)
    | ok g1 =>
      rw [h1] at h
      rcases ih g1 g' h (fun pr hpr => hnd pr (List.mem_cons_of_mem _ hpr)) w hw with
        hw1 | hex | hex
      · rcases import_redpanda_provenance g p r g1 h1
          (hnd (p, r) (List.mem_cons_self _ _)) w hw1 with hw2 | ⟨e, he, hze⟩ | hid
        · exact Or.inl hw2
        · rcases importFold_panda_edges_extend rest g1 g' h with ⟨t, ht⟩
          exact Or.inr (Or.inl ⟨e, by rw [ht]; exact List.mem_append_left _ he, hze⟩)
        · exact Or.inr (Or.inr ⟨(p, r), List.mem_cons_self _ _, hid⟩)
      · exact Or.inr (Or.inl hex)
      · rcases hex with ⟨pr, hpr, hid⟩
        exact Or.inr (Or.inr ⟨pr, List.mem_cons_of_mem _ hpr, hid⟩)

/-- The panda phase preserves the zoo-edge-witness invariant. -/
theorem importFold_panda_zoo_edges : ∀ (pfs : List (String × Dict)) (g g' : RedPandaGraph),
    importFold import_redpanda g pfs = .ok g' →
    (∀ z ∈ g.zoos, (z.map Prod.fst).Nodup) →
    (∀ e ∈ g.edges, zooLabeled e → ∃ z ∈ g.zoos,
      dget z "_id" = dget e "_in" ∧ ∃ w ∈ g.vertices, deq z w = true) →
    ∀ e ∈ g'.edges, zooLabeled e → ∃ z ∈ g'.zoos,
      dget z "_id" = dget e "_in" ∧ ∃ w ∈ g'.vertices, deq z w = true := by
  intro pfs
  induction pfs with
  | nil =>
    intro g g' h _ hprev
    simp only [importFold, Except.ok.injEq] at h
    subst h
    exact hprev
  | cons q rest ih =>
    intro g g' h hznd hprev
    rcases q with ⟨p, r⟩
    simp only [importFold] at h
    cases h1 : import_redpanda g p r with
    | error e => rw [h1] at h; exact absurd h (by simp)
    | ok g1 =>
      rw [h1] at h
      rcases import_redpanda_vertices g p r g1 h1 with ⟨_, hz1, _⟩
      refine ih g1 g' h ?_ ?_
      · rw [hz1]; exact hznd
      · exact import_redpanda_zoo_edges g p r g1 h1 hznd hprev

/-- A successful build decomposes into a completed zoo fold and a
completed panda fold. -/
theorem build_ok_phases (zfs pfs : List (String × Dict)) (g : RedPandaGraph)
    (hb : build_graph zfs pfs = .ok g) :
    ∃ gz, importFold import_zoo initGraph zfs = .ok gz ∧
          importFold import_redpanda gz pfs = .ok g := by
  unfold build_graph at hb
  cases h1 : import_tree initGraph zfs import_zoo verify_zoos with
  | error e => rw [h1] at hb; exact absurd hb (by simp)
  | ok gz =>
    rw [h1] at hb
    unfold import_tree at h1
    cases h2 : importFold import_zoo initGraph zfs with
    | error e => rw [h2] at h1; exact absurd h1 (by simp)
    | ok gz0 =>
      rw [h2] at h1
      dsimp only at h1
      cases h3 : verify_zoos gz0 with
      | error e => rw [h3] at h1; exact absurd h1 (by simp)
      | ok u =>
        rw [h3] at h1
        dsimp only at h1
        cases h1
        unfold import_tree at hb
        dsimp only at hb
        cases h4 : importFold import_redpanda gz pfs with
        | error e => rw [h4] at hb; exact absurd hb (by simp)
        | ok g2 =>
          rw [h4] at hb
          dsimp only at hb
          cases h5 : verify_pandas g2 with
          | error e => rw [h5] at hb; exact absurd hb (by simp)
          | ok u2 =>
            rw [h5] at hb
            dsimp only at hb
            cases hb
            exact ⟨gz, rfl, h4⟩

/-- Every entry paired by the id comprehension carries an _id value. -/
theorem forall2_id_mem : ∀ (ds : List Dict) (ids : List String),
    List.Forall₂ (fun d i => dget d "_id" = some i) ds ids →
    ∀ d ∈ ds, ∃ i, dget d "_id" = some i := by
  intro ds ids hf
  induction hf with
  | nil => intro d hd; exact absurd hd (by simp)
  | @cons d0 i0 rest restIds h1 h2 ih =>
    intro d hd
    rcases List.mem_cons.mp hd with rfl | hd'
    · exact ⟨i0, h1⟩
    · exact ih d hd'

/-- C1 amended: for every successful build, every animal record
contributes a vertex carrying its _id to the exported vertex list; every
captivity (zoo-labeled) edge has its referenced zoo entry dict-equal to
a vertex in the list; conversely every vertex is such a referenced zoo
or carries some animal record's _id, so a zoo no edge targets and no
animal record names has no vertex in the list (unreferenced zoos are
omitted); the exported totals are zoos = number of imported zoo records
and pandas = vertex count minus zoo count; and whenever the vertex list
holds as many zoo vertices as there are imported zoos (every zoo
referenced), those totals equal the spec counts: zoos = count of zoo
vertices in the list and pandas = count of non-zoo vertices. -/
theorem c1_amended_export (zfs pfs : List (String × Dict)) (g : RedPandaGraph)
    (hb : build_graph zfs pfs = .ok g)
    (hnodup : ∀ pr ∈ pfs, (pr.2.map Prod.fst).Nodup) :
    (∀ pr ∈ pfs, ∃ v ∈ g.vertices, dget v "_id" = dget pr.2 "_id") ∧
    (∀ e ∈ g.edges, zooLabeled e → ∃ z ∈ g.zoos,
      dget z "_id" = dget e "_in" ∧ ∃ w ∈ g.vertices, deq z w = true) ∧
    (∀ w ∈ g.vertices,
      (∃ e ∈ g.edges, zooLabeled e ∧ dget e "_in" = dget w "_id") ∨
      ∃ pr ∈ pfs, dget w "_id" = dget pr.2 "_id") ∧
    (∀ z ∈ g.zoos, (∀ e ∈ g.edges, dget e "_in" ≠ dget z "_id") →
      (∀ pr ∈ pfs, dget pr.2 "_id" ≠ dget z "_id") →
      ∀ w ∈ g.vertices, deq z w = false) ∧
    export_json_graph g = dumpExport g.edges g.vertices (g.zoos.length : Int)
      ((g.vertices.length : Int) - (g.zoos.length : Int)) ∧
    (specZooCount g = g.zoos.length →
      export_json_graph g
        = dumpExport g.edges g.vertices (specZooCount g) (specPandaCount g)) := by
  obtain ⟨gz, hzf, hpf⟩ := build_ok_phases zfs pfs g hb
  obtain ⟨hgzv, hgze, hgznd⟩ := importFold_zoo_shape zfs initGraph gz hzf
  have hzoosnd : ∀ z ∈ gz.zoos, (z.map Prod.fst).Nodup := by
    apply hgznd
    intro z hz
    simp [initGraph] at hz
  have hC : ∀ w ∈ g.vertices,
      (∃ e ∈ g.edges, zooLabeled e ∧ dget e "_in" = dget w "_id") ∨
      ∃ pr ∈ pfs, dget w "_id" = dget pr.2 "_id" := by
    intro w hw
    rcases importFold_panda_provenance pfs gz g hpf hnodup w hw with hw1 | hex | hex
    · rw [hgzv] at hw1
      simp [initGraph] at hw1
    · exact Or.inl hex
    · exact Or.inr hex
  refine ⟨?_, ?_, hC, ?_, rfl, ?_⟩
  · intro pr hpr
    exact importFold_panda_ids pfs gz g hpf pr hpr (hnodup pr hpr)
  · refine importFold_panda_zoo_edges pfs gz g hpf hzoosnd ?_
    intro e he
    rw [hgze] at he
    simp [initGraph] at he
  · intro z hzmem hne hnr w hw
    cases hdq : deq z w with
    | false => rfl
    | true =>
      exfalso
      rcases check_dup_ok_nodup (build_ok_dup_check zfs pfs g hb) with ⟨ids, hids, _⟩
      rcases forall2_id_mem g.vertices ids (idsOf_forall2 g.vertices ids hids) w hw with
        ⟨i, hwi⟩
      have hzi : dget z "_id" = some i := deq_id hdq hwi
      rcases hC w hw with ⟨e, he, _, hein⟩ | ⟨pr, hpr, hid⟩
      · exact hne e he (hein.trans (hwi.trans hzi.symm))
      · exact hnr pr hpr (hid.symm.trans (hwi.trans hzi.symm))
  · intro hz
    unfold export_json_graph
    have hsum : specZooCount g + specPandaCount g = g.vertices.length :=
      countP_not_add (isZooVertex g) g.vertices
    have h1 : (g.zoos.length : Int) = (specZooCount g : Int) := by
      exact_mod_cast hz.symm
    have hsI : (specZooCount g : Int) + (specPandaCount g : Int)
        = (g.vertices.length : Int) := by
      exact_mod_cast hsum
    have h2 : (g.vertices.length : Int) - (g.zoos.length : Int)
        = (specPandaCount g : Int) := by
      omega
    rw [h2, h1]

/-- Witness for C1 amended: the end-to-end Sample Zoo and Mochi build,
where the single zoo is referenced, so the totals equal the spec counts;
the conditional conjunct is applied with its hypothesis evaluated on the
concrete store. -/
theorem c1_amended_export_witness :
    export_json_graph (RedPandaGraph.mk
        [[("_out", "100"), ("_in", "-5"), ("_label", "birthplace")]]
        [[("_id", "-5"), ("en.name", "Sample Zoo")],
         [("_id", "100"), ("en.name", "Mochi"), ("gender", "Female")]]
        [[("_id", "-5"), ("en.name", "Sample Zoo")]]
        ["pandas/jp/0100_mochi.txt"] ["zoos/jp/0001_sample.txt"])
      = dumpExport
        [[("_out", "100"), ("_in", "-5"), ("_label", "birthplace")]]
        [[("_id", "-5"), ("en.name", "Sample Zoo")],
         [("_id", "100"), ("en.name", "Mochi"), ("gender", "Female")]]
        (specZooCount (RedPandaGraph.mk
          [[("_out", "100"), ("_in", "-5"), ("_label", "birthplace")]]
          [[("_id", "-5"), ("en.name", "Sample Zoo")],
           [("_id", "100"), ("en.name", "Mochi"), ("gender", "Female")]]
          [[("_id", "-5"), ("en.name", "Sample Zoo")]]
          ["pandas/jp/0100_mochi.txt"] ["zoos/jp/0001_sample.txt"]))
        (specPandaCount (RedPandaGraph.mk
          [[("_out", "100"), ("_in", "-5"), ("_label", "birthplace")]]
          [[("_id", "-5"), ("en.name", "Sample Zoo")],
           [("_id", "100"), ("en.name", "Mochi"), ("gender", "Female")]]
          [[("_id", "-5"), ("en.name", "Sample Zoo")]]
          ["pandas/jp/0100_mochi.txt"] ["zoos/jp/0001_sample.txt"])) :=
  (c1_amended_export
    [("zoos/jp/0001_sample.txt", [("_id", "5"), ("en.name", "Sample Zoo")])]
    [("pandas/jp/0100_mochi.txt",
      [("_id", "100"), ("en.name", "Mochi"), ("gender", "f"),
       ("birthplace", "5"), ("children", "none")])]
    _ rfl (by decide)).2.2.2.2.2 (by decide)
